import Mathlib

/-!
Verification of the roulettify room subsystem (Go sources: internal/game/room.go,
internal/game/models.go, internal/server/routes.go, internal/auth/spotify.go).

Go maps are modelled as association lists (`SMap`) whose iteration order is the
insertion order: a fixed determinization of Go's map iteration, which the spec
treats as implementation-defined but stable within a round.  Timestamps are
modelled as `Nat` ticks.  Timers and goroutine delays are modelled by the
`Sched` value a handler returns: the asynchronous follow-up the Go code arms.
-/

set_option maxHeartbeats 1000000

namespace Roulettify

/-! ### Association-list maps (Go `map[string]V` with insertion-order iteration) -/

abbrev SMap (α : Type) : Type := List (String × α)

def mapGet? {α : Type} (m : SMap α) (k : String) : Option α :=
  (m.find? (fun e => e.1 == k)).map (fun e => e.2)

def mapContains {α : Type} (m : SMap α) (k : String) : Bool :=
  m.any (fun e => e.1 == k)

def mapInsert {α : Type} (m : SMap α) (k : String) (v : α) : SMap α :=
  if mapContains m k then m.map (fun e => if e.1 == k then (k, v) else e)
  else m ++ [(k, v)]

def mapErase {α : Type} (m : SMap α) (k : String) : SMap α :=
  m.filter (fun e => e.1 != k)

def mapUpdate {α : Type} (m : SMap α) (k : String) (f : α → α) : SMap α :=
  m.map (fun e => if e.1 == k then (k, f e.2) else e)

def setInsert (s : List String) (x : String) : List String :=
  if x ∈ s then s else s ++ [x]

/-! ### Data model (internal/auth/spotify.go, internal/game/models.go) -/

structure Track where
  id : String
  name : String
  artists : List String
  rank : Nat
  uri : String
  imageURL : String
  previewURL : String
deriving Repr, DecidableEq, Inhabited

structure Player where
  id : String
  name : String
  spotifyID : String
  topTracks : List Track
  isReady : Bool
  isLeader : Bool
deriving Repr, DecidableEq, Inhabited

structure Guess where
  playerID : String
  guessedPlayerID : String
  timestamp : Nat
deriving Repr, DecidableEq, Inhabited

inductive GameState where
  | waiting
  | playing
  | roundEnd
  | gameOver
deriving Repr, DecidableEq

structure ReadyPayload where
  playerID : String
  isReady : Bool
deriving Repr, DecidableEq

structure RoundResult where
  round : Nat
  track : Track
  winnerID : String
  winnerRank : Nat
  correctGuessers : List String
  pointsAwarded : SMap Nat
  allRankings : SMap Nat
  updatedScores : SMap Nat
  guessDurations : SMap Int
deriving Repr, DecidableEq

/-- Events fanned out to room members (the `Message` broadcasts of room.go),
with the payload fields the claims are about. -/
inductive Msg where
  | error (message : String)
  | playerJoined (playerID : String) (playerCount : Nat)
  | playerLeft (playerID : String) (playerCount : Nat)
  | playerReady (playerID : String) (isReady : Bool)
  | gameStarted (totalRounds : Int)
  | roundStarted (round : Nat) (totalRounds : Int) (track : Track)
  | guessReceived (playerID : String) (guessesCount : Nat) (totalPlayers : Nat)
  | roundComplete (result : RoundResult)
  | gameOverMsg (winnerID : String) (finalScores : SMap Nat)
  | gameReset
deriving Repr, DecidableEq

/-- The asynchronous follow-up a handler arms (goroutine sleeps and timers of
room.go): intermission before round 1, inter-round delay, the delayed
game-over broadcast, the 30-second round deadline timer, and the immediate
`endRound` spawned when every player has guessed. -/
inductive Sched where
  | firstRound (delaySeconds : Nat)
  | nextRound (delaySeconds : Nat)
  | finishGame (delaySeconds : Nat)
  | roundTimer (durationSeconds : Nat)
  | endRoundNow
deriving Repr, DecidableEq

structure GameRoom where
  id : String
  players : SMap Player
  playerOrder : List String
  scores : SMap Nat
  currentRound : Nat
  totalRounds : Int
  currentTrack : Option Track
  guesses : SMap Guess
  playedTracks : List String
  state : GameState
  leaderID : String
  roundStartTime : Nat
deriving Repr, DecidableEq

def maxPlayersPerRoom : Nat := 10

def newGameRoom (id : String) : GameRoom :=
  { id := id
    players := []
    playerOrder := []
    scores := []
    currentRound := 0
    totalRounds := 0
    currentTrack := none
    guesses := []
    playedTracks := []
    state := .waiting
    leaderID := ""
    roundStartTime := 0 }

/-- Result of one serialized step of the room loop: the new room state, the
broadcasts emitted, and the asynchronous follow-up armed (if any). -/
structure StepResult where
  room : GameRoom
  msgs : List Msg
  sched : Option Sched
deriving Repr, DecidableEq

/-! ### Room handlers (room.go) -/

def handlePlayerJoin (r : GameRoom) (player : Player) : StepResult :=
  if maxPlayersPerRoom ≤ r.players.length then
    ⟨r, [.error ("Room is full (maximum 10 players)")], none⟩
  else
    let player := { player with isReady := false, isLeader := r.players.length == 0 }
    let leaderID := if r.players.length = 0 then player.id else r.leaderID
    let r := { r with
      players := mapInsert r.players player.id player
      playerOrder := r.playerOrder ++ [player.id]
      scores := mapInsert r.scores player.id 0
      leaderID := leaderID }
    ⟨r, [.playerJoined player.id r.players.length], none⟩

def removeFirst (l : List String) (x : String) : List String :=
  match l with
  | [] => []
  | y :: ys => if y == x then ys else y :: removeFirst ys x

def handlePlayerLeave (r : GameRoom) (playerID : String) : StepResult :=
  match mapGet? r.players playerID with
  | none => ⟨r, [], none⟩
  | some _ =>
    let players0 := mapErase r.players playerID
    let scores := mapErase r.scores playerID
    let guesses := mapErase r.guesses playerID
    let order := removeFirst r.playerOrder playerID
    let promote : Prop := playerID = r.leaderID ∧ order ≠ []
    let players :=
      if promote then mapUpdate players0 (order.headD "") (fun p => { p with isLeader := true })
      else players0
    let leaderID :=
      if promote then order.headD ""
      else if order = [] then ""
      else r.leaderID
    let r := { r with
      players := players
      scores := scores
      guesses := guesses
      playerOrder := order
      leaderID := leaderID }
    let msgs := [Msg.playerLeft playerID r.players.length]
    if r.players = [] ∧ r.state ≠ .waiting then
      (⟨{ r with state := .waiting, currentRound := 0, scores := [] }, msgs, none⟩ : StepResult)
    else
      ⟨r, msgs, none⟩

def handlePlayerReady (r : GameRoom) (payload : ReadyPayload) : StepResult :=
  match mapGet? r.players payload.playerID with
  | none => ⟨r, [], none⟩
  | some _ =>
    let (r, resetMsgs) :=
      if r.state = .gameOver then
        (({ r with
              state := .waiting
              currentRound := 0
              scores := r.players.map (fun e => (e.1, 0))
              players := r.players.map (fun e => (e.1, { e.2 with isReady := false })) } : GameRoom),
         [Msg.gameReset])
      else
        (r, ([] : List Msg))
    let r := { r with
      players := mapUpdate r.players payload.playerID (fun p => { p with isReady := payload.isReady }) }
    ⟨r, resetMsgs ++ [.playerReady payload.playerID payload.isReady], none⟩

def handleGameStart (r : GameRoom) (totalRounds : Int) : StepResult :=
  let r :=
    if r.state = .gameOver then
      { r with
          state := .waiting
          currentRound := 0
          scores := r.players.map (fun e => (e.1, 0)) }
    else r
  if r.state ≠ .waiting then
    ⟨r, [], none⟩
  else if r.players.length < 2 then
    ⟨r, [.error ("Need at least 2 players to start")], none⟩
  else if ¬ r.players.all (fun e => e.2.isReady) then
    ⟨r, [.error ("All players must be ready to start")], none⟩
  else
    let rounds : Int := if totalRounds ≤ 0 then 10 else totalRounds
    let r := { r with
      totalRounds := rounds
      currentRound := 0
      state := .playing
      playedTracks := [] }
    ⟨r, [.gameStarted totalRounds], some (.firstRound 5)⟩

/-! ### Track selection (room.go selectTrack) -/

/-- One member's top-tracks folded into the `(trackCounts, trackMap)` pair:
already-played ids are skipped, counts are incremented per occurrence, and
`trackMap` keeps the first copy of each id. -/
def scanTracks (played : List String) : List Track → SMap Nat × SMap Track → SMap Nat × SMap Track
  | [], acc => acc
  | t :: ts, acc =>
    if t.id ∈ played then scanTracks played ts acc
    else
      let counts := mapInsert acc.1 t.id ((mapGet? acc.1 t.id).getD 0 + 1)
      let tmap := if mapContains acc.2 t.id then acc.2 else acc.2 ++ [(t.id, t)]
      scanTracks played ts (counts, tmap)

def scanPlayers (played : List String) : List (String × Player) → SMap Nat × SMap Track → SMap Nat × SMap Track
  | [], acc => acc
  | p :: ps, acc => scanPlayers played ps (scanTracks played p.2.topTracks acc)

/-- Go: weight 1, bumped to `count * 5` when the track is shared. -/
def weightOf (count : Nat) : Nat :=
  if 1 < count then count * 5 else 1

def weightedPool (counts : SMap Nat) : List String :=
  (counts.map (fun e => List.replicate (weightOf e.2) e.1)).flatten

def trackCountsOf (r : GameRoom) : SMap Nat :=
  (scanPlayers r.playedTracks r.players ([], [])).1

def trackMapOf (r : GameRoom) : SMap Track :=
  (scanPlayers r.playedTracks r.players ([], [])).2

def candidatePool (r : GameRoom) : List String :=
  weightedPool (trackCountsOf r)

/-- `selectTrack` with the random draw `rand.Intn (len pool)` abstracted as an
arbitrary index `i` reduced modulo the pool size. -/
def selectTrack (r : GameRoom) (i : Nat) : Option Track :=
  let pool := candidatePool r
  if pool = [] then none
  else mapGet? (trackMapOf r) (pool.getD (i % pool.length) "")

/-! ### Round lifecycle (room.go) -/

/-- The mutation `startNextRound` performs before selecting a track:
increment the round counter, record the start time, clear the guesses. -/
def advanceRound (r : GameRoom) (now : Nat) : GameRoom :=
  { r with currentRound := r.currentRound + 1, roundStartTime := now, guesses := [] }

/-- The masked copy broadcast in `round_started`. -/
def maskTrack (t : Track) : Track :=
  { t with name := "???", artists := ["???"], imageURL := "" }

def startNextRound (r : GameRoom) (now : Nat) (i : Nat) : StepResult :=
  let r := advanceRound r now
  match selectTrack r i with
  | none => ⟨r, [.error ("No tracks available")], none⟩
  | some track =>
    let r := { r with
      currentTrack := some track
      playedTracks := setInsert r.playedTracks track.id }
    ⟨r, [.roundStarted r.currentRound r.totalRounds (maskTrack track)], some (.roundTimer 30)⟩

def handleGuess (r : GameRoom) (g : Guess) : StepResult :=
  if r.state ≠ .playing then
    ⟨r, [], none⟩
  else
    let r := { r with guesses := mapInsert r.guesses g.playerID g }
    let sched := if r.guesses.length = r.players.length then some Sched.endRoundNow else none
    ⟨r, [.guessReceived g.playerID r.guesses.length r.players.length], sched⟩

/-! ### Scoring (room.go calculateRoundResults) -/

/-- Rank of a track id in a member's top-tracks: the `Rank` field of the first
matching entry, `999` if absent. -/
def rankOf (p : Player) (trackID : String) : Nat :=
  match p.topTracks.find? (fun t => t.id == trackID) with
  | some t => t.rank
  | none => 999

/-- The points/score/duration accumulation loop over the sorted correct
guessers: index 0 gets the speed bonus. -/
def awardPoints (guessTime : String → Nat) (roundStart : Nat) :
    List String → Nat → SMap Nat × SMap Nat × SMap Int → SMap Nat × SMap Nat × SMap Int
  | [], _, acc => acc
  | pid :: rest, idx, (pts, scores, durations) =>
    let basePoints := 10
    let speedBonus := if idx == 0 then 5 else 0
    let total := basePoints + speedBonus
    awardPoints guessTime roundStart rest (idx + 1)
      (mapInsert pts pid total,
       mapInsert scores pid ((mapGet? scores pid).getD 0 + total),
       mapInsert durations pid ((guessTime pid : Int) - (roundStart : Int)))

/-- The timestamp of a player's recorded guess (`r.Guesses[pid].Timestamp`). -/
def guessTimeOf (guesses : SMap Guess) (pid : String) : Nat :=
  ((mapGet? guesses pid).map (fun g => g.timestamp)).getD 0

/-- One step of the winner search: keep the entry with the strictly lower
rank. -/
def rankStep (acc : String × Nat) (e : String × Nat) : String × Nat :=
  if e.2 < acc.2 then e else acc

/-- The `allRankings` map: every member keyed to its rank for the track. -/
def allRankingsOf (r : GameRoom) (currentTrack : Track) : SMap Nat :=
  r.players.map (fun e => (e.1, rankOf e.2 currentTrack.id))

/-- The winner search: fold over the rankings starting from rank 999 and the
empty id. -/
def winnerOf (r : GameRoom) (currentTrack : Track) : String × Nat :=
  (allRankingsOf r currentTrack).foldl rankStep ("", 999)

/-- The guessers that named the winner, sorted by guess timestamp (fastest
first). -/
def correctGuessersOf (r : GameRoom) (winnerID : String) : List String :=
  ((r.guesses.filter (fun e => e.2.guessedPlayerID == winnerID)).map
      (fun e => e.1)).mergeSort
    (fun a b => decide (guessTimeOf r.guesses a ≤ guessTimeOf r.guesses b))

/-- `calculateRoundResults`, with the current track (which Go reads through the
`CurrentTrack` pointer) passed explicitly.  Returns the room with the updated
scores together with the `RoundResult` payload. -/
def calculateRoundResults (r : GameRoom) (currentTrack : Track) : GameRoom × RoundResult :=
  let allRankings : SMap Nat := allRankingsOf r currentTrack
  let best := winnerOf r currentTrack
  let winnerID := best.1
  let bestRank := best.2
  let correctGuessers := correctGuessersOf r winnerID
  let (pointsAwarded, scores, guessDurations) :=
    awardPoints (guessTimeOf r.guesses) r.roundStartTime correctGuessers 0 ([], r.scores, [])
  ({ r with scores := scores },
   { round := r.currentRound
     track := currentTrack
     winnerID := winnerID
     winnerRank := bestRank
     correctGuessers := correctGuessers
     pointsAwarded := pointsAwarded
     allRankings := allRankings
     updatedScores := scores
     guessDurations := guessDurations })

def endRound (r : GameRoom) : StepResult :=
  if r.state ≠ .playing then
    ⟨r, [], none⟩
  else
    match r.currentTrack with
    | none => ⟨r, [], none⟩
    | some ct =>
      let (r, result) := calculateRoundResults r ct
      let sched :=
        if (r.currentRound : Int) ≥ r.totalRounds then some (Sched.finishGame 5)
        else some (Sched.nextRound 5)
      ⟨r, [.roundComplete result], sched⟩

def getWinnerID (r : GameRoom) : String :=
  (r.scores.foldl (fun acc e => if (e.2 : Int) > acc.2 then (e.1, (e.2 : Int)) else acc) ("", -1)).1

/-- The delayed goroutine `endRound` spawns after the final round: set the
state to game over and broadcast the winner with the final scores. -/
def finishGame (r : GameRoom) : StepResult :=
  let r := { r with state := .gameOver }
  ⟨r, [.gameOverMsg (getWinnerID r) r.scores], none⟩

/-! ### The serialized command loop (room.go Run) -/

/-- The commands consumed by the room loop, together with the loop re-entries
performed by timers and scheduled goroutines (`roundStart`, `roundEnd`,
`finish`).  `roundStart` carries the wall-clock tick and the random draw. -/
inductive Cmd where
  | join (player : Player)
  | leave (playerID : String)
  | setReady (payload : ReadyPayload)
  | startGame (totalRounds : Int)
  | submitGuess (g : Guess)
  | roundStart (now : Nat) (i : Nat)
  | roundEnd
  | finish
deriving Repr, DecidableEq

def applyCmd (r : GameRoom) : Cmd → StepResult
  | .join p => handlePlayerJoin r p
  | .leave pid => handlePlayerLeave r pid
  | .setReady payload => handlePlayerReady r payload
  | .startGame n => handleGameStart r n
  | .submitGuess g => handleGuess r g
  | .roundStart now i => startNextRound r now i
  | .roundEnd => endRound r
  | .finish => finishGame r

def runCmds (r : GameRoom) : List Cmd → GameRoom
  | [] => r
  | c :: cs => runCmds (applyCmd r c).room cs

/-- The guard under which `handleGameStart` performs the WAITING → PLAYING
transition (after its GameOver auto-fix). -/
def gameStartGuard (r : GameRoom) : Bool :=
  (r.state == .gameOver || r.state == .waiting)
    && decide (2 ≤ r.players.length)
    && r.players.all (fun e => e.2.isReady)

def startsGame (r : GameRoom) : Cmd → Bool
  | .startGame _ => gameStartGuard r
  | _ => false

/-- The track id a step selects, if it is a round start whose pool is
non-empty. -/
def stepSelected (r : GameRoom) : Cmd → Option String
  | .roundStart now i => (selectTrack (advanceRound r now) i).map (fun t => t.id)
  | _ => none

def traceSelections (r : GameRoom) : List Cmd → List String
  | [] => []
  | c :: cs => (stepSelected r c).toList ++ traceSelections (applyCmd r c).room cs

def noStartIn (r : GameRoom) : List Cmd → Bool
  | [] => true
  | c :: cs => !startsGame r c && noStartIn (applyCmd r c).room cs

/-! ### Connection endpoint (routes.go HandleWebSocket) -/

/-- The room channels a websocket envelope can be forwarded to. -/
inductive RoomCommand where
  | joinCmd
  | startCmd
  | guessCmd
  | readyCmd
deriving Repr, DecidableEq

/-- The dispatch switch of the websocket read loop in routes.go: which room
command, if any, an inbound envelope type is forwarded to. -/
def dispatchEnvelopeType (msgType : String) : Option RoomCommand :=
  match msgType with
  | "join_room" => some .joinCmd
  | "start_game" => some .startCmd
  | "submit_guess" => some .guessCmd
  | _ => none

/-! ### Map lemmas -/

def keysOf {α : Type} (m : SMap α) : List String :=
  m.map Prod.fst

theorem mapContains_eq_isSome {α : Type} (m : SMap α) (k : String) :
    mapContains m k = (m.find? (fun e => e.1 == k)).isSome := by
  induction m with
  | nil => rfl
  | cons e m ih =>
    by_cases h : e.1 = k
    · simp [mapContains, List.find?, h]
    · have hb : (e.1 == k) = false := by simp [h]
      simp [mapContains, List.find?, hb] at *
      exact ih

theorem mapGet?_eq_none_of_not_contains {α : Type} (m : SMap α) (k : String)
    (h : mapContains m k = false) : mapGet? m k = none := by
  rw [mapContains_eq_isSome] at h
  unfold mapGet?
  cases hf : m.find? (fun e => e.1 == k) with
  | none => rfl
  | some e => rw [hf] at h; simp at h

theorem mapContains_of_mapGet?_eq_some {α : Type} (m : SMap α) (k : String) (v : α)
    (h : mapGet? m k = some v) : mapContains m k = true := by
  rw [mapContains_eq_isSome]
  unfold mapGet? at h
  cases hf : m.find? (fun e => e.1 == k) with
  | none => rw [hf] at h; simp at h
  | some e => simp

theorem find?_replace {α : Type} (m : SMap α) (k : String) (v : α) :
    (m.map (fun e => if e.1 == k then (k, v) else e)).find? (fun e => e.1 == k)
      = if mapContains m k then some (k, v) else none := by
  induction m with
  | nil => rfl
  | cons e m ih =>
    by_cases h : e.1 = k
    · have hb : (e.1 == k) = true := beq_iff_eq.mpr h
      simp only [List.map_cons, hb, if_true, mapContains, List.any_cons, Bool.true_or]
      rw [List.find?_cons_of_pos _ (by simp)]
    · have hb : (e.1 == k) = false := beq_eq_false_iff_ne.mpr h
      simp only [List.map_cons, hb, if_false, mapContains, List.any_cons, Bool.false_or]
      rw [List.find?_cons_of_neg _ (by simp [hb])]
      exact ih

theorem find?_append_single {α : Type} (m : SMap α) (k : String) (v : α)
    (h : mapContains m k = false) :
    (m ++ [(k, v)]).find? (fun e => e.1 == k) = some (k, v) := by
  induction m with
  | nil => simp [List.find?]
  | cons e m ih =>
    simp only [mapContains, List.any_cons, Bool.or_eq_false_iff] at h
    simp only [List.cons_append, List.find?, h.1]
    exact ih h.2

theorem mapGet?_mapInsert_self {α : Type} (m : SMap α) (k : String) (v : α) :
    mapGet? (mapInsert m k v) k = some v := by
  unfold mapInsert mapGet?
  by_cases h : mapContains m k
  · rw [if_pos h, find?_replace, if_pos h]; rfl
  · rw [if_neg h]
    rw [find?_append_single m k v (by simpa using h)]; rfl

theorem find?_map_ne {α : Type} (m : SMap α) (k k' : String) (v : α) (h : k' ≠ k) :
    (m.map (fun e => if e.1 == k then (k, v) else e)).find? (fun e => e.1 == k')
      = m.find? (fun e => e.1 == k') := by
  induction m with
  | nil => rfl
  | cons e m ih =>
    by_cases he : e.1 = k
    · have hb : (e.1 == k) = true := beq_iff_eq.mpr he
      have hk : (k == k') = false := beq_eq_false_iff_ne.mpr (Ne.symm h)
      have he' : (e.1 == k') = false := by rw [he]; exact hk
      simp only [List.map_cons, hb, if_true]
      rw [List.find?_cons_of_neg _ (by simp [hk]), List.find?_cons_of_neg _ (by simp [he'])]
      exact ih
    · have hb : (e.1 == k) = false := beq_eq_false_iff_ne.mpr he
      simp only [List.map_cons, hb, if_false]
      cases hc : (e.1 == k') with
      | true =>
        rw [List.find?_cons_of_pos _ (by simp [hc]), List.find?_cons_of_pos _ (by simp [hc])]
        simp [hb]
      | false =>
        rw [List.find?_cons_of_neg _ (by simp [hc]), List.find?_cons_of_neg _ (by simp [hc])]
        exact ih

theorem mapGet?_mapInsert_ne {α : Type} (m : SMap α) (k k' : String) (v : α) (h : k' ≠ k) :
    mapGet? (mapInsert m k v) k' = mapGet? m k' := by
  unfold mapInsert mapGet?
  by_cases hc : mapContains m k
  · rw [if_pos hc, find?_map_ne m k k' v h]
  · rw [if_neg hc, List.find?_append]
    have hkk : (k == k') = false := beq_eq_false_iff_ne.mpr (Ne.symm h)
    have h1 : ([(k, v)].find? (fun e => e.1 == k')) = none := by
      rw [List.find?_cons_of_neg _ (by simp [hkk])]
      rfl
    rw [h1, Option.or_none]

theorem length_mapInsert {α : Type} (m : SMap α) (k : String) (v : α) :
    (mapInsert m k v).length ≤ m.length + 1 := by
  unfold mapInsert
  by_cases h : mapContains m k
  · rw [if_pos h, List.length_map]; omega
  · rw [if_neg h, List.length_append]; simp

theorem length_mapErase_le {α : Type} (m : SMap α) (k : String) :
    (mapErase m k).length ≤ m.length := by
  unfold mapErase
  exact List.length_filter_le _ _

theorem keysOf_mapInsert {α : Type} (m : SMap α) (k : String) (v : α) :
    keysOf (mapInsert m k v) = if mapContains m k then keysOf m else keysOf m ++ [k] := by
  unfold mapInsert keysOf
  by_cases h : mapContains m k
  · rw [if_pos h, if_pos h, List.map_map]
    apply List.map_congr_left
    intro e _
    by_cases he : e.1 = k
    · simp [Function.comp, he]
    · simp [Function.comp, beq_eq_false_iff_ne.mpr he]
  · rw [if_neg h, if_neg h]
    simp

theorem nodup_keys_mapInsert {α : Type} (m : SMap α) (k : String) (v : α)
    (h : (keysOf m).Nodup) : (keysOf (mapInsert m k v)).Nodup := by
  rw [keysOf_mapInsert]
  by_cases hc : mapContains m k
  · rwa [if_pos hc]
  · rw [if_neg hc]
    have hk : k ∉ keysOf m := by
      intro hmem
      unfold keysOf at hmem
      rcases List.mem_map.mp hmem with ⟨e, hmem', he⟩
      have : mapContains m k = true := by
        unfold mapContains
        rw [List.any_eq_true]
        exact ⟨e, hmem', by simp [he]⟩
      rw [this] at hc
      exact hc rfl
    simp only [List.nodup_append]
    exact ⟨h, List.nodup_singleton k, by simpa using hk⟩

theorem mapGet?_of_mem_nodup {α : Type} (m : SMap α) (k : String) (v : α)
    (hmem : (k, v) ∈ m) (hnd : (keysOf m).Nodup) : mapGet? m k = some v := by
  induction m with
  | nil => simp at hmem
  | cons e m ih =>
    rcases List.mem_cons.mp hmem with he | hm
    · subst he
      simp [mapGet?, List.find?]
    · have hk : e.1 ≠ k := by
        intro hek
        have : k ∈ keysOf m := by
          unfold keysOf
          exact List.mem_map.mpr ⟨(k, v), hm, rfl⟩
        unfold keysOf at hnd
        simp only [List.map_cons, List.nodup_cons] at hnd
        rw [hek] at hnd
        exact hnd.1 this
      have hb : (e.1 == k) = false := by simp [hk]
      simp only [mapGet?, List.find?, hb]
      exact ih hm (by
        unfold keysOf at hnd ⊢
        simp only [List.map_cons, List.nodup_cons] at hnd
        exact hnd.2)

theorem mem_of_mapGet?_eq_some {α : Type} (m : SMap α) (k : String) (v : α)
    (h : mapGet? m k = some v) : (k, v) ∈ m := by
  unfold mapGet? at h
  cases hf : m.find? (fun e => e.1 == k) with
  | none => rw [hf] at h; simp at h
  | some e =>
    rw [hf] at h
    have hmem := List.mem_of_find?_eq_some hf
    have hk0 : (e.1 == k) = true := @List.find?_some _ (fun e => e.1 == k) e m hf
    have hk : e.1 = k := beq_iff_eq.mp hk0
    have hv : e.2 = v := by
      cases e
      simpa using h
    have he : e = (k, v) := by
      cases e
      simp only at hk hv
      rw [hk, hv]
    rw [← he]
    exact hmem

theorem length_mapUpdate {α : Type} (m : SMap α) (k : String) (f : α → α) :
    (mapUpdate m k f).length = m.length := by
  unfold mapUpdate
  exact List.length_map _ _

/-! ### Concrete fixtures -/

def trackT1 : Track :=
  { id := "t1", name := "Song One", artists := ["Artist A"], rank := 1,
    uri := "uri:t1", imageURL := "img1", previewURL := "prev1" }

def trackT2 : Track :=
  { id := "t2", name := "Song Two", artists := ["Artist B"], rank := 2,
    uri := "uri:t2", imageURL := "img2", previewURL := "prev2" }

def trackT3 : Track :=
  { id := "t3", name := "Song Three", artists := ["Artist C"], rank := 1,
    uri := "uri:t3", imageURL := "img3", previewURL := "prev3" }

def playerA : Player :=
  { id := "A", name := "Alice", spotifyID := "spA",
    topTracks := [trackT1, trackT2], isReady := true, isLeader := true }

def playerB : Player :=
  { id := "B", name := "Bob", spotifyID := "spB",
    topTracks := [{ trackT2 with rank := 1 }, trackT3], isReady := true, isLeader := false }

def playerC : Player :=
  { id := "C", name := "Cara", spotifyID := "spC",
    topTracks := [], isReady := false, isLeader := false }

/-! ### Claim C9 (code_bug evidence) -/

/-- Claim C9: the spec's envelope table says an inbound `ready` envelope makes
the endpoint submit a SetReady command to the bound room.  The dispatch switch
of HandleWebSocket in routes.go forwards only join_room, start_game and
submit_guess; a `ready` envelope is dropped, so no command reaches the room. -/
theorem ready_envelope_not_dispatched : dispatchEnvelopeType "ready" = none := rfl

/-! ### Claim C2 -/

def guessA1 : Guess := { playerID := "A", guessedPlayerID := "B", timestamp := 5 }

def guessA2 : Guess := { playerID := "A", guessedPlayerID := "C", timestamp := 9 }

def roomC2 : GameRoom :=
  { newGameRoom "Room 1" with
      state := .playing
      players := [("A", playerA), ("B", playerB)]
      scores := [("A", 0), ("B", 0)]
      guesses := [("A", guessA1)] }

/-- Claim C2 counterexample: member A already has a guess recorded for the
current round; processing a second Guess from A replaces the stored guess,
refuting first-write-wins. -/
theorem second_guess_replaces_first_cex :
    mapGet? roomC2.guesses "A" = some guessA1
    ∧ mapGet? (handleGuess roomC2 guessA2).room.guesses "A" = some guessA2
    ∧ guessA2 ≠ guessA1 := by
  refine ⟨rfl, rfl, by decide⟩

/-- Claim C2 (amended): a second Guess from the same member within one round
replaces that member's stored guess (last-write-wins); entries of other
members are unchanged. -/
theorem handleGuess_last_write_wins (r : GameRoom) (g : Guess) (h : r.state = .playing) :
    mapGet? (handleGuess r g).room.guesses g.playerID = some g
    ∧ ∀ pid, pid ≠ g.playerID →
        mapGet? (handleGuess r g).room.guesses pid = mapGet? r.guesses pid := by
  unfold handleGuess
  rw [if_neg (show ¬ r.state ≠ GameState.playing from fun hc => hc h)]
  exact ⟨mapGet?_mapInsert_self _ _ _, fun pid hpid => mapGet?_mapInsert_ne _ _ _ _ hpid⟩

/-- Witness for the amended C2 theorem at a concrete playing room. -/
theorem handleGuess_last_write_wins_witness :
    mapGet? (handleGuess roomC2 guessA2).room.guesses guessA2.playerID = some guessA2 := by
  exact (handleGuess_last_write_wins roomC2 guessA2 rfl).1

/-! ### Claim C8 -/

def guessZ : Guess := { playerID := "Z", guessedPlayerID := "Q", timestamp := 3 }

def roomC8 : GameRoom :=
  { newGameRoom "Room 1" with
      state := .playing
      players := [("A", playerA)]
      scores := [("A", 0)] }

/-- Claim C8 counterexample: neither "Z" nor "Q" is a member of the room, yet
processing the Guess changes the guesses mapping, refuting the claim that such
a command leaves it unchanged. -/
theorem nonmember_guess_recorded_cex :
    mapContains roomC8.players "Z" = false
    ∧ mapContains roomC8.players "Q" = false
    ∧ (handleGuess roomC8 guessZ).room.guesses ≠ roomC8.guesses := by
  refine ⟨rfl, rfl, by decide⟩

/-- Claim C8 (amended): handleGuess validates neither player_id nor
guessed_player_id against the members mapping: whenever the room is PLAYING it
records the guess keyed by its player_id, whatever ids it carries; only a
Guess received outside PLAYING leaves the room unchanged. -/
theorem handleGuess_no_membership_check (r : GameRoom) (g : Guess) :
    (r.state = .playing → (handleGuess r g).room.guesses = mapInsert r.guesses g.playerID g)
    ∧ (r.state ≠ .playing → (handleGuess r g).room = r) := by
  constructor
  · intro h
    unfold handleGuess
    rw [if_neg (show ¬ r.state ≠ GameState.playing from fun hc => hc h)]
  · intro h
    unfold handleGuess
    rw [if_pos h]

/-- Witness for the amended C8 theorem: the non-member guess is recorded. -/
theorem handleGuess_no_membership_check_witness :
    (handleGuess roomC8 guessZ).room.guesses = mapInsert roomC8.guesses guessZ.playerID guessZ := by
  exact (handleGuess_no_membership_check roomC8 guessZ).1 rfl

/-! ### Claim C3: capacity -/

theorem handlePlayerJoin_full (r : GameRoom) (p : Player)
    (h : maxPlayersPerRoom ≤ r.players.length) :
    handlePlayerJoin r p = ⟨r, [.error ("Room is full (maximum 10 players)")], none⟩ := by
  unfold handlePlayerJoin
  rw [if_pos h]

theorem handlePlayerJoin_players_le (r : GameRoom) (p : Player)
    (h : r.players.length ≤ maxPlayersPerRoom) :
    (handlePlayerJoin r p).room.players.length ≤ maxPlayersPerRoom := by
  unfold handlePlayerJoin
  by_cases hfull : maxPlayersPerRoom ≤ r.players.length
  · rw [if_pos hfull]
    exact h
  · rw [if_neg hfull]
    dsimp only
    have hlt : r.players.length < maxPlayersPerRoom := by omega
    have := length_mapInsert r.players p.id
      { p with isReady := false, isLeader := r.players.length == 0 }
    omega

theorem handlePlayerLeave_players_le (r : GameRoom) (pid : String)
    (h : r.players.length ≤ maxPlayersPerRoom) :
    (handlePlayerLeave r pid).room.players.length ≤ maxPlayersPerRoom := by
  have herase := length_mapErase_le r.players pid
  have hupd := length_mapUpdate (mapErase r.players pid)
    ((removeFirst r.playerOrder pid).headD "") (fun p => { p with isLeader := true })
  unfold handlePlayerLeave
  cases hm : mapGet? r.players pid with
  | none => exact h
  | some p =>
    dsimp only
    split <;> (try split) <;> (try split) <;> dsimp only <;> omega

theorem handlePlayerReady_players_length (r : GameRoom) (payload : ReadyPayload) :
    (handlePlayerReady r payload).room.players.length = r.players.length := by
  unfold handlePlayerReady
  cases hm : mapGet? r.players payload.playerID with
  | none => rfl
  | some p =>
    simp only
    split
    · rw [length_mapUpdate, List.length_map]
    · rw [length_mapUpdate]

theorem handleGameStart_players (r : GameRoom) (n : Int) :
    (handleGameStart r n).room.players = r.players := by
  unfold handleGameStart
  dsimp only
  repeat' split
  all_goals rfl

theorem handleGuess_players (r : GameRoom) (g : Guess) :
    (handleGuess r g).room.players = r.players := by
  unfold handleGuess
  split <;> rfl

theorem startNextRound_players (r : GameRoom) (now i : Nat) :
    (startNextRound r now i).room.players = r.players := by
  simp only [startNextRound]
  split <;> rfl

theorem endRound_players (r : GameRoom) :
    (endRound r).room.players = r.players := by
  simp only [endRound]
  split
  · rfl
  · split <;> (repeat' split) <;> rfl

theorem finishGame_players (r : GameRoom) :
    (finishGame r).room.players = r.players := rfl

theorem applyCmd_players_le (r : GameRoom) (c : Cmd)
    (h : r.players.length ≤ maxPlayersPerRoom) :
    (applyCmd r c).room.players.length ≤ maxPlayersPerRoom := by
  cases c with
  | join p => exact handlePlayerJoin_players_le r p h
  | leave pid => exact handlePlayerLeave_players_le r pid h
  | setReady payload =>
    show (handlePlayerReady r payload).room.players.length ≤ _
    rw [handlePlayerReady_players_length]
    exact h
  | startGame n =>
    show (handleGameStart r n).room.players.length ≤ _
    rw [handleGameStart_players]
    exact h
  | submitGuess g =>
    show (handleGuess r g).room.players.length ≤ _
    rw [handleGuess_players]
    exact h
  | roundStart now i =>
    show (startNextRound r now i).room.players.length ≤ _
    rw [startNextRound_players]
    exact h
  | roundEnd =>
    show (endRound r).room.players.length ≤ _
    rw [endRound_players]
    exact h
  | finish =>
    show (finishGame r).room.players.length ≤ _
    rw [finishGame_players]
    exact h

theorem runCmds_capacity (r : GameRoom) (cmds : List Cmd)
    (h : r.players.length ≤ maxPlayersPerRoom) :
    (runCmds r cmds).players.length ≤ maxPlayersPerRoom := by
  induction cmds generalizing r with
  | nil => exact h
  | cons c cs ih => exact ih _ (applyCmd_players_le r c h)

/-- Claim C3: along every sequence of commands processed by a room loop
started from a fresh room, the number of members never exceeds
MAX_PLAYERS_PER_ROOM; and a Join processed while the room is full emits the
room-full error event and leaves the room (all fields) unchanged. -/
theorem capacity_invariant (id : String) (cmds : List Cmd) (r : GameRoom) (p : Player) :
    (runCmds (newGameRoom id) cmds).players.length ≤ maxPlayersPerRoom
    ∧ (maxPlayersPerRoom ≤ r.players.length →
        applyCmd r (.join p) = ⟨r, [.error ("Room is full (maximum 10 players)")], none⟩) := by
  constructor
  · exact runCmds_capacity _ cmds (by simp [newGameRoom])
  · intro hfull
    exact handlePlayerJoin_full r p hfull

def fullRoomPlayers : SMap Player :=
  [("P1", playerA), ("P2", playerA), ("P3", playerA), ("P4", playerA), ("P5", playerA),
   ("P6", playerA), ("P7", playerA), ("P8", playerA), ("P9", playerA), ("P10", playerA)]

def fullRoom : GameRoom :=
  { newGameRoom "Room 1" with players := fullRoomPlayers }

/-- Witness for C3 at a concrete full room: the eleventh join is rejected
unchanged. -/
theorem capacity_invariant_witness :
    applyCmd fullRoom (.join playerB)
      = ⟨fullRoom, [.error ("Room is full (maximum 10 players)")], none⟩ := by
  exact (capacity_invariant "Room 1" [] fullRoom playerB).2 (by decide)

/-! ### Claim C7: the StartGame transition -/

/-- Claim C7: in state WAITING, StartGame(n) transitions to PLAYING iff the
room has at least 2 members and every member is ready (otherwise an error
event is emitted and the room is unchanged); on the transition total_rounds is
10 when n ≤ 0 and n otherwise, played_track_ids is emptied, all scores are 0
(scores, all zero in WAITING, are untouched), game_started is broadcast and
the first round is scheduled after the 5-second intermission. -/
theorem game_start_transition (r : GameRoom) (n : Int)
    (hw : r.state = .waiting) (hz : ∀ e ∈ r.scores, e.2 = 0) :
    ((handleGameStart r n).room.state = .playing
      ↔ (2 ≤ r.players.length ∧ ∀ e ∈ r.players, e.2.isReady = true))
    ∧ ((2 ≤ r.players.length ∧ ∀ e ∈ r.players, e.2.isReady = true) →
        (handleGameStart r n).room.totalRounds = (if n ≤ 0 then 10 else n)
        ∧ (handleGameStart r n).room.playedTracks = []
        ∧ (handleGameStart r n).room.scores = r.scores
        ∧ (∀ e ∈ (handleGameStart r n).room.scores, e.2 = 0)
        ∧ (handleGameStart r n).msgs = [.gameStarted n]
        ∧ (handleGameStart r n).sched = some (.firstRound 5)
        ∧ (handleGameStart r n).room.currentRound = 0)
    ∧ (¬(2 ≤ r.players.length ∧ ∀ e ∈ r.players, e.2.isReady = true) →
        (handleGameStart r n).room = r
        ∧ (∃ m, (handleGameStart r n).msgs = [Msg.error m])
        ∧ (handleGameStart r n).sched = none) := by
  have hno : ¬ r.state = GameState.gameOver := by
    rw [hw]
    intro hc
    cases hc
  unfold handleGameStart
  rw [if_neg hno]
  rw [if_neg (show ¬ r.state ≠ GameState.waiting from fun hc => hc hw)]
  by_cases h2 : r.players.length < 2
  · rw [if_pos h2]
    refine ⟨?_, ?_, ?_⟩
    · dsimp only
      rw [hw]
      constructor
      · intro hc
        cases hc
      · intro hc
        omega
    · intro hc
      omega
    · intro _
      exact ⟨rfl, ⟨"Need at least 2 players to start", rfl⟩, rfl⟩
  · rw [if_neg h2]
    cases hall : r.players.all (fun e => e.2.isReady) with
    | true =>
      have hforall : ∀ e ∈ r.players, e.2.isReady = true := by
        intro e he
        exact List.all_eq_true.mp hall e he
      rw [if_neg (show ¬¬ (true = true) from fun hc => hc rfl)]
      refine ⟨?_, ?_, ?_⟩
      · dsimp only
        constructor
        · intro _
          exact ⟨by omega, hforall⟩
        · intro _
          rfl
      · intro _
        refine ⟨rfl, rfl, rfl, hz, rfl, rfl, rfl⟩
      · intro hc
        exact absurd ⟨by omega, hforall⟩ hc
    | false =>
      have hnot : ¬ (∀ e ∈ r.players, e.2.isReady = true) := by
        intro hfa
        rw [List.all_eq_true.mpr hfa] at hall
        cases hall
      rw [if_pos (show ¬ (false = true) from fun hc => by cases hc)]
      refine ⟨?_, ?_, ?_⟩
      · dsimp only
        rw [hw]
        constructor
        · intro hc
          cases hc
        · intro hc
          exact absurd hc.2 hnot
      · intro hc
        exact absurd hc.2 hnot
      · intro _
        exact ⟨rfl, ⟨"All players must be ready to start", rfl⟩, rfl⟩

def roomC7 : GameRoom :=
  { newGameRoom "Room 1" with
      players := [("A", playerA), ("B", playerB)]
      playerOrder := ["A", "B"]
      scores := [("A", 0), ("B", 0)]
      leaderID := "A" }

/-- Witness for C7 at a concrete WAITING room with two ready members and a
non-positive requested round count. -/
theorem game_start_transition_witness :
    (handleGameStart roomC7 (-3)).room.state = .playing
    ∧ (handleGameStart roomC7 (-3)).room.totalRounds = 10 := by
  have h := game_start_transition roomC7 (-3) rfl (by decide)
  have hg : 2 ≤ roomC7.players.length ∧ ∀ e ∈ roomC7.players, e.2.isReady = true := by decide
  refine ⟨h.1.mpr hg, ?_⟩
  have := (h.2.1 hg).1
  simpa using this

/-! ### Claim C6: track masking -/

def roomC6w : GameRoom :=
  { newGameRoom "Room 1" with
      players := [("A", playerA), ("B", playerB)]
      playerOrder := ["A", "B"]
      scores := [("A", 0), ("B", 0)]
      state := .playing }

/-- Claim C6: the round_started broadcast carries the selected track with name
replaced by "???", artists by ["???"] and image_url by the empty string, id
and preview_url preserved; the round_complete payload carries the selected
track unmasked. -/
theorem round_broadcast_masking (r : GameRoom) (now i : Nat) (track ct : Track)
    (hsel : selectTrack (advanceRound r now) i = some track) :
    (startNextRound r now i).msgs
        = [.roundStarted (r.currentRound + 1) r.totalRounds (maskTrack track)]
    ∧ (maskTrack track).name = "???"
    ∧ (maskTrack track).artists = ["???"]
    ∧ (maskTrack track).imageURL = ""
    ∧ (maskTrack track).id = track.id
    ∧ (maskTrack track).previewURL = track.previewURL
    ∧ (startNextRound r now i).room.currentTrack = some track
    ∧ (calculateRoundResults r ct).2.track = ct := by
  have h1 : (startNextRound r now i).msgs
      = [.roundStarted (r.currentRound + 1) r.totalRounds (maskTrack track)] := by
    simp only [startNextRound, hsel]
    rfl
  have h7 : (startNextRound r now i).room.currentTrack = some track := by
    simp only [startNextRound, hsel]
  exact ⟨h1, rfl, rfl, rfl, rfl, rfl, h7, rfl⟩

/-- Witness for C6 at a concrete two-player playing room where index 0 selects
track t1. -/
theorem round_broadcast_masking_witness :
    (startNextRound roomC6w 100 0).msgs
        = [.roundStarted (roomC6w.currentRound + 1) roomC6w.totalRounds (maskTrack trackT1)]
    ∧ (maskTrack trackT1).name = "???" := by
  have h := round_broadcast_masking roomC6w 100 0 trackT1 trackT1 (by decide)
  exact ⟨h.1, h.2.1⟩

/-! ### Claim C10: the game_over winner -/

def scoreValue (scores : SMap Nat) (pid : String) : Nat :=
  (mapGet? scores pid).getD 0

def winnerStep (acc : String × Int) (e : String × Nat) : String × Int :=
  if (e.2 : Int) > acc.2 then (e.1, (e.2 : Int)) else acc

theorem getWinnerID_eq_fold (r : GameRoom) :
    getWinnerID r = (r.scores.foldl winnerStep ("", -1)).1 := rfl

theorem winnerFold_snd_ge (l : SMap Nat) (acc : String × Int) :
    acc.2 ≤ (l.foldl winnerStep acc).2 := by
  induction l generalizing acc with
  | nil => exact le_refl _
  | cons e l ih =>
    have h1 : acc.2 ≤ (winnerStep acc e).2 := by
      unfold winnerStep
      split
      · omega
      · exact le_refl _
    calc acc.2 ≤ (winnerStep acc e).2 := h1
      _ ≤ _ := ih (winnerStep acc e)

theorem winnerFold_ge_mem (l : SMap Nat) (acc : String × Int) :
    ∀ e ∈ l, (e.2 : Int) ≤ (l.foldl winnerStep acc).2 := by
  induction l generalizing acc with
  | nil => intro e he; cases he
  | cons x l ih =>
    intro e he
    rcases List.mem_cons.mp he with rfl | hm
    · have h1 : (e.2 : Int) ≤ (winnerStep acc e).2 := by
        unfold winnerStep
        split
        · exact le_refl _
        · omega
      calc (e.2 : Int) ≤ (winnerStep acc e).2 := h1
        _ ≤ _ := winnerFold_snd_ge l (winnerStep acc e)
    · exact ih (winnerStep acc x) e hm

theorem winnerFold_mem_or_acc (l : SMap Nat) (acc : String × Int) :
    l.foldl winnerStep acc = acc
    ∨ ∃ e ∈ l, l.foldl winnerStep acc = (e.1, (e.2 : Int)) := by
  induction l generalizing acc with
  | nil => exact Or.inl rfl
  | cons x l ih =>
    rcases ih (winnerStep acc x) with h | ⟨e, he, h⟩
    · simp only [List.foldl_cons] at *
      rw [h]
      unfold winnerStep
      split
      · exact Or.inr ⟨x, List.mem_cons_self _ _, rfl⟩
      · exact Or.inl rfl
    · exact Or.inr ⟨e, List.mem_cons_of_mem _ he, h⟩

theorem mapContains_eq_keys_any {α : Type} (m : SMap α) (k : String) :
    mapContains m k = (keysOf m).any (fun x => x == k) := by
  induction m with
  | nil => rfl
  | cons e m ih =>
    unfold mapContains keysOf at *
    simp only [List.any_cons, List.map_cons]
    rw [← ih]

/-- Claim C10: the game-over broadcast carries winner_id and the accumulated
score mapping as final_scores; with members and scores keyed identically,
winner_id is a current member with maximal accumulated score when the room is
non-empty, and the empty string when it is empty. -/
theorem game_over_winner (r : GameRoom)
    (hnd : (keysOf r.scores).Nodup)
    (hkeyseq : keysOf r.scores = keysOf r.players) :
    (finishGame r).msgs = [.gameOverMsg (getWinnerID r) r.scores]
    ∧ (finishGame r).room.state = .gameOver
    ∧ (r.players = [] → getWinnerID r = "")
    ∧ (r.players ≠ [] →
        mapContains r.players (getWinnerID r) = true
        ∧ ∀ e ∈ r.scores, e.2 ≤ scoreValue r.scores (getWinnerID r)) := by
  have hkeys : ∀ pid, mapContains r.scores pid = mapContains r.players pid := by
    intro pid
    rw [mapContains_eq_keys_any, mapContains_eq_keys_any, hkeyseq]
  refine ⟨rfl, rfl, ?_, ?_⟩
  · intro hp
    have hs : r.scores = [] := by
      cases hsc : r.scores with
      | nil => rfl
      | cons e l =>
        have hc : mapContains r.scores e.1 = true := by
          rw [hsc]
          unfold mapContains
          simp
        rw [hkeys e.1, hp] at hc
        cases hc
    rw [getWinnerID_eq_fold, hs]
    rfl
  · intro hp
    have hs : r.scores ≠ [] := by
      cases hpl : r.players with
      | nil => exact absurd hpl hp
      | cons e l =>
        have hc : mapContains r.players e.1 = true := by
          rw [hpl]
          unfold mapContains
          simp
        rw [← hkeys e.1] at hc
        intro hnil
        rw [hnil] at hc
        cases hc
    rcases winnerFold_mem_or_acc r.scores ("", -1) with hfold | ⟨e, he, hfold⟩
    · exfalso
      cases hsc : r.scores with
      | nil => exact hs hsc
      | cons x l =>
        have hx : ((x.2 : Nat) : Int) ≤ (r.scores.foldl winnerStep ("", -1)).2 :=
          winnerFold_ge_mem r.scores ("", -1) x (by rw [hsc]; exact List.mem_cons_self _ _)
        rw [hfold] at hx
        simp only at hx
        omega
    · have hwid : getWinnerID r = e.1 := by
        rw [getWinnerID_eq_fold, hfold]
      constructor
      · rw [hwid, ← hkeys e.1]
        unfold mapContains
        rw [List.any_eq_true]
        exact ⟨e, he, by simp⟩
      · intro e' he'
        have h1 : ((e'.2 : Nat) : Int) ≤ (r.scores.foldl winnerStep ("", -1)).2 :=
          winnerFold_ge_mem r.scores ("", -1) e' he'
        rw [hfold] at h1
        have hlook : mapGet? r.scores e.1 = some e.2 := by
          apply mapGet?_of_mem_nodup _ _ _ _ hnd
          cases e
          exact he
        have h2 : ((e'.2 : Nat) : Int) ≤ ((e.2 : Nat) : Int) := by simpa using h1
        rw [hwid]
        unfold scoreValue
        rw [hlook]
        simp only [Option.getD_some]
        exact_mod_cast h2

def roomC10 : GameRoom :=
  { newGameRoom "Room 1" with
      players := [("A", playerA), ("B", playerB)]
      playerOrder := ["A", "B"]
      scores := [("A", 10), ("B", 25)]
      state := .playing }

/-- Witness for C10 at a concrete room: B has the maximal score and is the
broadcast winner. -/
theorem game_over_winner_witness :
    (finishGame roomC10).msgs = [.gameOverMsg (getWinnerID roomC10) roomC10.scores]
    ∧ mapContains roomC10.players (getWinnerID roomC10) = true := by
  have h := game_over_winner roomC10 (by decide) (by decide)
  exact ⟨h.1, (h.2.2.2 (by decide)).1⟩

/-! ### Claim C4: the weighted candidate pool -/

theorem mapContains_eq_get?_isSome {α : Type} (m : SMap α) (k : String) :
    mapContains m k = (mapGet? m k).isSome := by
  rw [mapContains_eq_isSome]
  unfold mapGet?
  cases m.find? (fun e => e.1 == k) <;> rfl

theorem mapContains_mapInsert {α : Type} (m : SMap α) (k k' : String) (v : α) :
    mapContains (mapInsert m k v) k' = if k' = k then true else mapContains m k' := by
  by_cases h : k' = k
  · subst h
    rw [if_pos rfl, mapContains_eq_get?_isSome, mapGet?_mapInsert_self]
    rfl
  · rw [if_neg h, mapContains_eq_get?_isSome, mapGet?_mapInsert_ne _ _ _ _ h,
      mapContains_eq_get?_isSome]

theorem mapGet?_cons {α : Type} (e : String × α) (m : SMap α) (k : String) :
    mapGet? (e :: m) k = if e.1 == k then some e.2 else mapGet? m k := by
  by_cases h : (e.1 == k) = true
  · rw [if_pos h]
    unfold mapGet?
    rw [@List.find?_cons_of_pos _ (fun x => x.1 == k) e m h]
    rfl
  · rw [if_neg h]
    unfold mapGet?
    rw [@List.find?_cons_of_neg _ (fun x => x.1 == k) e m h]

/-- Occurrences of a track id in one member's top-tracks that survive the
played-filter of selectTrack. -/
def tracksOcc (played : List String) (tid : String) (ts : List Track) : Nat :=
  if tid ∈ played then 0 else ts.countP (fun t => t.id == tid)

/-- Total occurrence count of a track id over all members, as accumulated by
selectTrack's trackCounts map. -/
def playersOcc (played : List String) (tid : String) (ps : SMap Player) : Nat :=
  (ps.map (fun e => tracksOcc played tid e.2.topTracks)).sum

theorem tracksOcc_played (played : List String) (tid : String) (ts : List Track)
    (h : tid ∈ played) : tracksOcc played tid ts = 0 := by
  unfold tracksOcc
  rw [if_pos h]

theorem scanTracks_getD (played : List String) (tid : String) :
    ∀ (ts : List Track) (acc : SMap Nat × SMap Track),
      (mapGet? (scanTracks played ts acc).1 tid).getD 0
        = (mapGet? acc.1 tid).getD 0 + tracksOcc played tid ts := by
  intro ts
  induction ts with
  | nil =>
    intro acc
    unfold scanTracks tracksOcc
    simp
  | cons t ts ih =>
    intro acc
    unfold scanTracks
    by_cases hp : t.id ∈ played
    · rw [if_pos hp, ih]
      congr 1
      unfold tracksOcc
      by_cases htid : tid ∈ played
      · rw [if_pos htid, if_pos htid]
      · rw [if_neg htid, if_neg htid, List.countP_cons]
        have hb : (t.id == tid) = false :=
          beq_eq_false_iff_ne.mpr (fun he => htid (he ▸ hp))
        rw [hb]
        simp
    · rw [if_neg hp, ih]
      by_cases hk : t.id = tid
      · subst hk
        rw [mapGet?_mapInsert_self]
        have hocc : tracksOcc played t.id (t :: ts) = tracksOcc played t.id ts + 1 := by
          unfold tracksOcc
          rw [if_neg hp, if_neg hp, List.countP_cons]
          simp
        rw [hocc]
        simp only [Option.getD_some]
        omega
      · rw [mapGet?_mapInsert_ne _ _ _ _ (fun he => hk he.symm)]
        have hocc : tracksOcc played tid (t :: ts) = tracksOcc played tid ts := by
          unfold tracksOcc
          by_cases htid : tid ∈ played
          · rw [if_pos htid, if_pos htid]
          · rw [if_neg htid, if_neg htid, List.countP_cons]
            have hb : (t.id == tid) = false := beq_eq_false_iff_ne.mpr hk
            rw [hb]
            simp
        rw [hocc]

theorem scanTracks_contains (played : List String) (tid : String) :
    ∀ (ts : List Track) (acc : SMap Nat × SMap Track),
      mapContains (scanTracks played ts acc).1 tid
        = (mapContains acc.1 tid || decide (0 < tracksOcc played tid ts)) := by
  intro ts
  induction ts with
  | nil =>
    intro acc
    unfold scanTracks tracksOcc
    simp
  | cons t ts ih =>
    intro acc
    unfold scanTracks
    by_cases hp : t.id ∈ played
    · rw [if_pos hp, ih]
      have hocc : tracksOcc played tid (t :: ts) = tracksOcc played tid ts := by
        unfold tracksOcc
        by_cases htid : tid ∈ played
        · rw [if_pos htid, if_pos htid]
        · rw [if_neg htid, if_neg htid, List.countP_cons]
          have hb : (t.id == tid) = false :=
            beq_eq_false_iff_ne.mpr (fun he => htid (he ▸ hp))
          rw [hb]
          simp
      rw [hocc]
    · rw [if_neg hp, ih, mapContains_mapInsert]
      by_cases hk : tid = t.id
      · rw [if_pos hk]
        have hocc : 0 < tracksOcc played tid (t :: ts) := by
          unfold tracksOcc
          rw [if_neg (fun hin => hp (hk ▸ hin)), List.countP_cons]
          have hb : (t.id == tid) = true := beq_iff_eq.mpr hk.symm
          rw [hb, if_pos rfl]
          omega
        simp [hocc]
      · rw [if_neg hk]
        have hocc : tracksOcc played tid (t :: ts) = tracksOcc played tid ts := by
          unfold tracksOcc
          by_cases htid : tid ∈ played
          · rw [if_pos htid, if_pos htid]
          · rw [if_neg htid, if_neg htid, List.countP_cons]
            have hb : (t.id == tid) = false :=
              beq_eq_false_iff_ne.mpr (fun he => hk he.symm)
            rw [hb]
            simp
        rw [hocc]

theorem scanTracks_nodupKeys (played : List String) :
    ∀ (ts : List Track) (acc : SMap Nat × SMap Track),
      (keysOf acc.1).Nodup → (keysOf (scanTracks played ts acc).1).Nodup := by
  intro ts
  induction ts with
  | nil => intro acc h; exact h
  | cons t ts ih =>
    intro acc h
    unfold scanTracks
    by_cases hp : t.id ∈ played
    · rw [if_pos hp]
      exact ih acc h
    · rw [if_neg hp]
      exact ih _ (nodup_keys_mapInsert _ _ _ h)

/-- Every value stored in the trackMap carries the id it is keyed by. -/
def goodTrackMap (m : SMap Track) : Prop := ∀ e ∈ m, e.2.id = e.1

theorem scanTracks_good (played : List String) :
    ∀ (ts : List Track) (acc : SMap Nat × SMap Track),
      goodTrackMap acc.2 → goodTrackMap (scanTracks played ts acc).2 := by
  intro ts
  induction ts with
  | nil => intro acc h; exact h
  | cons t ts ih =>
    intro acc h
    unfold scanTracks
    by_cases hp : t.id ∈ played
    · rw [if_pos hp]
      exact ih acc h
    · rw [if_neg hp]
      apply ih
      by_cases hc : mapContains acc.2 t.id
      · simpa [hc] using h
      · simp only [hc, if_false, Bool.false_eq_true]
        intro e he
        rcases List.mem_append.mp he with hmem | hmem
        · exact h e hmem
        · rcases List.mem_singleton.mp hmem with rfl
          rfl

theorem scanTracks_keys_not_played (played : List String) :
    ∀ (ts : List Track) (acc : SMap Nat × SMap Track),
      (∀ k, mapContains acc.1 k = true → k ∉ played) →
      ∀ k, mapContains (scanTracks played ts acc).1 k = true → k ∉ played := by
  intro ts
  induction ts with
  | nil => intro acc h; exact h
  | cons t ts ih =>
    intro acc h
    unfold scanTracks
    by_cases hp : t.id ∈ played
    · rw [if_pos hp]
      exact ih acc h
    · rw [if_neg hp]
      apply ih
      intro k hk
      rw [mapContains_mapInsert] at hk
      by_cases hkt : k = t.id
      · rw [hkt]
        exact hp
      · rw [if_neg hkt] at hk
        exact h k hk

theorem scanPlayers_getD (played : List String) (tid : String) :
    ∀ (ps : SMap Player) (acc : SMap Nat × SMap Track),
      (mapGet? (scanPlayers played ps acc).1 tid).getD 0
        = (mapGet? acc.1 tid).getD 0 + playersOcc played tid ps := by
  intro ps
  induction ps with
  | nil =>
    intro acc
    unfold scanPlayers playersOcc
    simp
  | cons p ps ih =>
    intro acc
    unfold scanPlayers
    rw [ih, scanTracks_getD]
    unfold playersOcc
    simp only [List.map_cons, List.sum_cons]
    omega

theorem scanPlayers_contains (played : List String) (tid : String) :
    ∀ (ps : SMap Player) (acc : SMap Nat × SMap Track),
      mapContains (scanPlayers played ps acc).1 tid
        = (mapContains acc.1 tid || decide (0 < playersOcc played tid ps)) := by
  intro ps
  induction ps with
  | nil =>
    intro acc
    unfold scanPlayers playersOcc
    simp
  | cons p ps ih =>
    intro acc
    unfold scanPlayers
    rw [ih, scanTracks_contains]
    unfold playersOcc
    simp only [List.map_cons, List.sum_cons]
    by_cases h1 : 0 < tracksOcc played tid p.2.topTracks
    · have : 0 < tracksOcc played tid p.2.topTracks
          + (ps.map (fun e => tracksOcc played tid e.2.topTracks)).sum := by omega
      simp [h1, this]
    · have h0 : tracksOcc played tid p.2.topTracks = 0 := by omega
      simp [h1, h0]

theorem scanPlayers_nodupKeys (played : List String) :
    ∀ (ps : SMap Player) (acc : SMap Nat × SMap Track),
      (keysOf acc.1).Nodup → (keysOf (scanPlayers played ps acc).1).Nodup := by
  intro ps
  induction ps with
  | nil => intro acc h; exact h
  | cons p ps ih =>
    intro acc h
    exact ih _ (scanTracks_nodupKeys played _ acc h)

theorem scanPlayers_good (played : List String) :
    ∀ (ps : SMap Player) (acc : SMap Nat × SMap Track),
      goodTrackMap acc.2 → goodTrackMap (scanPlayers played ps acc).2 := by
  intro ps
  induction ps with
  | nil => intro acc h; exact h
  | cons p ps ih =>
    intro acc h
    exact ih _ (scanTracks_good played _ acc h)

theorem scanPlayers_keys_not_played (played : List String) :
    ∀ (ps : SMap Player) (acc : SMap Nat × SMap Track),
      (∀ k, mapContains acc.1 k = true → k ∉ played) →
      ∀ k, mapContains (scanPlayers played ps acc).1 k = true → k ∉ played := by
  intro ps
  induction ps with
  | nil => intro acc h; exact h
  | cons p ps ih =>
    intro acc h
    exact ih _ (scanTracks_keys_not_played played _ acc h)

theorem trackCounts_getD (r : GameRoom) (tid : String) :
    (mapGet? (trackCountsOf r) tid).getD 0 = playersOcc r.playedTracks tid r.players := by
  unfold trackCountsOf
  rw [scanPlayers_getD]
  simp [mapGet?]

theorem trackCounts_contains (r : GameRoom) (tid : String) :
    mapContains (trackCountsOf r) tid = decide (0 < playersOcc r.playedTracks tid r.players) := by
  unfold trackCountsOf
  rw [scanPlayers_contains]
  simp [mapContains]

theorem trackCounts_nodup (r : GameRoom) : (keysOf (trackCountsOf r)).Nodup := by
  unfold trackCountsOf
  exact scanPlayers_nodupKeys _ _ _ List.nodup_nil

theorem trackMap_good (r : GameRoom) : goodTrackMap (trackMapOf r) := by
  unfold trackMapOf
  apply scanPlayers_good
  intro e he
  cases he

theorem trackCounts_not_played (r : GameRoom) :
    ∀ k, mapContains (trackCountsOf r) k = true → k ∉ r.playedTracks := by
  unfold trackCountsOf
  apply scanPlayers_keys_not_played
  intro k hk
  cases hk

theorem count_weightedPool (counts : SMap Nat) (hnd : (keysOf counts).Nodup) (tid : String) :
    (weightedPool counts).count tid
      = match mapGet? counts tid with
        | none => 0
        | some c => weightOf c := by
  induction counts with
  | nil => rfl
  | cons e counts ih =>
    have hnd' : (keysOf counts).Nodup := by
      unfold keysOf at hnd ⊢
      simp only [List.map_cons, List.nodup_cons] at hnd
      exact hnd.2
    have hhead : e.1 ∉ keysOf counts := by
      unfold keysOf at hnd ⊢
      simp only [List.map_cons, List.nodup_cons] at hnd
      exact hnd.1
    unfold weightedPool at *
    simp only [List.map_cons, List.flatten_cons, List.count_append]
    by_cases h : e.1 = tid
    · have hb : (e.1 == tid) = true := beq_iff_eq.mpr h
      have hget : mapGet? (e :: counts) tid = some e.2 := by
        unfold mapGet?
        rw [@List.find?_cons_of_pos _ (fun x => x.1 == tid) e counts hb]
        rfl
      have hnone : mapGet? counts tid = none := by
        apply mapGet?_eq_none_of_not_contains
        rw [mapContains_eq_keys_any]
        cases hca : ((keysOf counts).any fun x => x == tid) with
        | false => rfl
        | true =>
          exfalso
          rcases List.any_eq_true.mp hca with ⟨x, hx, hxe⟩
          have hxt : x = tid := beq_iff_eq.mp hxe
          rw [hxt, ← h] at hx
          exact hhead hx
      rw [hget, ih hnd', hnone]
      rw [List.count_replicate, if_pos hb]
      simp
    · have hb : (e.1 == tid) = false := beq_eq_false_iff_ne.mpr h
      have hget : mapGet? (e :: counts) tid = mapGet? counts tid := by
        unfold mapGet?
        rw [@List.find?_cons_of_neg _ (fun x => x.1 == tid) e counts (by simp [hb])]
      rw [hget, ih hnd']
      rw [List.count_replicate, if_neg (by simp [hb])]
      omega

theorem mem_weightedPool (counts : SMap Nat) (tid : String) (h : tid ∈ weightedPool counts) :
    mapContains counts tid = true := by
  unfold weightedPool at h
  rcases List.mem_flatten.mp h with ⟨l, hl, htid⟩
  rcases List.mem_map.mp hl with ⟨e, he, rfl⟩
  have heq := List.eq_of_mem_replicate htid
  unfold mapContains
  rw [List.any_eq_true]
  exact ⟨e, he, beq_iff_eq.mpr heq.symm⟩

theorem selectTrack_mem (r : GameRoom) (i : Nat) (t : Track) (h : selectTrack r i = some t) :
    t.id ∈ candidatePool r ∧ t.id ∉ r.playedTracks := by
  unfold selectTrack at h
  by_cases hp : candidatePool r = []
  · rw [if_pos hp] at h
    cases h
  · rw [if_neg hp] at h
    have hmem := mem_of_mapGet?_eq_some _ _ _ h
    have hid : t.id = (candidatePool r).getD (i % (candidatePool r).length) "" :=
      trackMap_good r _ hmem
    have hlen : 0 < (candidatePool r).length := List.length_pos.mpr hp
    have hidx : i % (candidatePool r).length < (candidatePool r).length := Nat.mod_lt _ hlen
    have hkey : (candidatePool r).getD (i % (candidatePool r).length) "" ∈ candidatePool r := by
      rw [List.getD_eq_getElem _ _ hidx]
      exact List.getElem_mem hidx
    constructor
    · rw [hid]
      exact hkey
    · rw [hid]
      apply trackCounts_not_played r
      exact mem_weightedPool _ _ hkey

theorem countP_eq_indicator (ts : List Track) (tid : String)
    (h : (ts.map (fun t => t.id)).Nodup) :
    ts.countP (fun t => t.id == tid) = if ts.any (fun t => t.id == tid) then 1 else 0 := by
  induction ts with
  | nil => rfl
  | cons t ts ih =>
    simp only [List.map_cons, List.nodup_cons] at h
    rw [List.countP_cons, List.any_cons]
    by_cases hh : t.id = tid
    · have hb : (t.id == tid) = true := beq_iff_eq.mpr hh
      rw [hb]
      have hzero : ts.countP (fun t => t.id == tid) = 0 := by
        rw [List.countP_eq_zero]
        intro a ha hc
        exact h.1 (List.mem_map.mpr ⟨a, ha, (beq_iff_eq.mp hc).trans hh.symm⟩)
      rw [hzero]
      simp
    · have hb : (t.id == tid) = false := beq_eq_false_iff_ne.mpr hh
      rw [hb, ih h.2]
      simp

theorem playersOcc_played_zero (played : List String) (tid : String) (ps : SMap Player)
    (h : tid ∈ played) : playersOcc played tid ps = 0 := by
  unfold playersOcc
  induction ps with
  | nil => rfl
  | cons p ps ih =>
    simp only [List.map_cons, List.sum_cons]
    rw [tracksOcc_played _ _ _ h, ih]

theorem playersOcc_eq_memberCount (played : List String) (tid : String) (ps : SMap Player)
    (hd : ∀ e ∈ ps, (e.2.topTracks.map (fun t => t.id)).Nodup) (hnp : tid ∉ played) :
    playersOcc played tid ps
      = (ps.filter (fun e => e.2.topTracks.any (fun t => t.id == tid))).length := by
  induction ps with
  | nil => rfl
  | cons e ps ih =>
    unfold playersOcc at *
    simp only [List.map_cons, List.sum_cons, List.filter_cons]
    have hocc : tracksOcc played tid e.2.topTracks
        = if e.2.topTracks.any (fun t => t.id == tid) then 1 else 0 := by
      unfold tracksOcc
      rw [if_neg hnp, countP_eq_indicator _ _ (hd e (List.mem_cons_self _ _))]
    rw [hocc, ih (fun x hx => hd x (List.mem_cons_of_mem _ hx))]
    by_cases ha : e.2.topTracks.any (fun t => t.id == tid) = true
    · rw [if_pos ha, if_pos ha]
      simp only [List.length_cons]
      omega
    · have ha' : e.2.topTracks.any (fun t => t.id == tid) = false := by
        cases hx : e.2.topTracks.any (fun t => t.id == tid)
        · rfl
        · exact absurd hx ha
      rw [ha']
      simp

/-- Claim C4: the selection pool contains, for every candidate id, one copy if
exactly one member has it and `5 * memberCount` copies if more than one member
has it; an already-played id never occurs in the pool, and the selected track
is always drawn from the pool (hence unplayed).  Stated under the data-model
assumption that each member's top-tracks list has pairwise distinct ids. -/
theorem track_selection_pool (r : GameRoom)
    (hdedup : ∀ e ∈ r.players, (e.2.topTracks.map (fun t => t.id)).Nodup) :
    (∀ tid, tid ∈ r.playedTracks → (candidatePool r).count tid = 0)
    ∧ (∀ tid, tid ∉ r.playedTracks →
        (candidatePool r).count tid =
          (if (r.players.filter (fun e => e.2.topTracks.any (fun t => t.id == tid))).length = 0
           then 0
           else if (r.players.filter (fun e => e.2.topTracks.any (fun t => t.id == tid))).length = 1
           then 1
           else 5 * (r.players.filter (fun e => e.2.topTracks.any (fun t => t.id == tid))).length))
    ∧ (∀ i t, selectTrack r i = some t → t.id ∈ candidatePool r ∧ t.id ∉ r.playedTracks) := by
  refine ⟨?_, ?_, fun i t h => selectTrack_mem r i t h⟩
  · intro tid hp
    unfold candidatePool
    rw [count_weightedPool _ (trackCounts_nodup r)]
    have hocc : playersOcc r.playedTracks tid r.players = 0 :=
      playersOcc_played_zero _ _ _ hp
    have hnone : mapGet? (trackCountsOf r) tid = none := by
      apply mapGet?_eq_none_of_not_contains
      rw [trackCounts_contains, hocc]
      simp
    rw [hnone]
  · intro tid hnp
    unfold candidatePool
    rw [count_weightedPool _ (trackCounts_nodup r)]
    have hocc := trackCounts_getD r tid
    rw [playersOcc_eq_memberCount _ _ _ hdedup hnp] at hocc
    by_cases h0 : (r.players.filter (fun e => e.2.topTracks.any (fun t => t.id == tid))).length = 0
    · have hnone : mapGet? (trackCountsOf r) tid = none := by
        apply mapGet?_eq_none_of_not_contains
        rw [trackCounts_contains, playersOcc_eq_memberCount _ _ _ hdedup hnp, h0]
        simp
      rw [hnone, if_pos h0]
    · cases hl : mapGet? (trackCountsOf r) tid with
      | none =>
        rw [hl] at hocc
        simp only [Option.getD_none] at hocc
        exact absurd hocc.symm h0
      | some c =>
        rw [hl] at hocc
        simp only [Option.getD_some] at hocc
        subst hocc
        dsimp only
        unfold weightOf
        by_cases h1 : (r.players.filter
            (fun e => e.2.topTracks.any (fun t => t.id == tid))).length = 1
        · rw [h1]
          simp
        · have h2 : 1 < (r.players.filter
              (fun e => e.2.topTracks.any (fun t => t.id == tid))).length := by omega
          rw [if_pos h2, if_neg h0, if_neg h1]
          omega

/-- Witness for C4: in the concrete two-player room the shared track t2 has
pool multiplicity 5·2 and index 0 selects t1, which is an unplayed pool
element. -/
theorem track_selection_pool_witness :
    (candidatePool roomC6w).count "t2"
      = (if (roomC6w.players.filter
              (fun e => e.2.topTracks.any (fun t => t.id == "t2"))).length = 0
         then 0
         else if (roomC6w.players.filter
              (fun e => e.2.topTracks.any (fun t => t.id == "t2"))).length = 1
         then 1
         else 5 * (roomC6w.players.filter
              (fun e => e.2.topTracks.any (fun t => t.id == "t2"))).length)
    ∧ trackT1.id ∈ candidatePool roomC6w ∧ trackT1.id ∉ roomC6w.playedTracks := by
  have h := track_selection_pool roomC6w (by decide)
  exact ⟨h.2.1 "t2" (by decide), h.2.2 0 trackT1 (by decide)⟩

/-! ### Claim C1: round results -/

def awardOf (res : RoundResult) (pid : String) : Nat :=
  (mapGet? res.pointsAwarded pid).getD 0

theorem mapGet?_map_values {α β : Type} (m : SMap α) (f : α → β) (k : String) :
    mapGet? (m.map (fun e => (e.1, f e.2))) k = (mapGet? m k).map f := by
  induction m with
  | nil => rfl
  | cons e m ih =>
    simp only [List.map_cons]
    rw [mapGet?_cons, mapGet?_cons]
    by_cases h : (e.1 == k) = true
    · rw [if_pos h, if_pos h]
      rfl
    · rw [if_neg h, if_neg h]
      exact ih

theorem rankFold_snd_le (l : SMap Nat) (acc : String × Nat) :
    (l.foldl rankStep acc).2 ≤ acc.2 := by
  induction l generalizing acc with
  | nil => exact le_refl _
  | cons e l ih =>
    have h1 : (rankStep acc e).2 ≤ acc.2 := by
      unfold rankStep
      split
      · omega
      · exact le_refl _
    calc (List.foldl rankStep (rankStep acc e) l).2 ≤ (rankStep acc e).2 := ih _
      _ ≤ acc.2 := h1

theorem rankFold_le_mem (l : SMap Nat) (acc : String × Nat) :
    ∀ e ∈ l, (l.foldl rankStep acc).2 ≤ e.2 := by
  induction l generalizing acc with
  | nil => intro e he; cases he
  | cons x l ih =>
    intro e he
    rcases List.mem_cons.mp he with rfl | hm
    · have h1 : (rankStep acc e).2 ≤ e.2 := by
        unfold rankStep
        split
        · exact le_refl _
        · omega
      calc (List.foldl rankStep (rankStep acc e) l).2 ≤ (rankStep acc e).2 :=
            rankFold_snd_le l _
        _ ≤ e.2 := h1
    · exact ih _ e hm

theorem rankFold_mem_or_acc (l : SMap Nat) (acc : String × Nat) :
    l.foldl rankStep acc = acc ∨ l.foldl rankStep acc ∈ l := by
  induction l generalizing acc with
  | nil => exact Or.inl rfl
  | cons x l ih =>
    rcases ih (rankStep acc x) with h | h
    · simp only [List.foldl_cons] at *
      rw [h]
      unfold rankStep
      split
      · exact Or.inr (List.mem_cons_self _ _)
      · exact Or.inl rfl
    · exact Or.inr (List.mem_cons_of_mem _ h)

theorem winnerOf_spec (r : GameRoom) (ct : Track)
    (hmin : ∃ e ∈ r.players, rankOf e.2 ct.id < 999) :
    winnerOf r ct ∈ allRankingsOf r ct
    ∧ ∀ e ∈ allRankingsOf r ct, (winnerOf r ct).2 ≤ e.2 := by
  have hminR : ∃ e ∈ allRankingsOf r ct, e.2 < 999 := by
    rcases hmin with ⟨e, he, hlt⟩
    exact ⟨(e.1, rankOf e.2 ct.id), List.mem_map.mpr ⟨e, he, rfl⟩, hlt⟩
  have hle := rankFold_le_mem (allRankingsOf r ct) ("", 999)
  rcases rankFold_mem_or_acc (allRankingsOf r ct) ("", 999) with hacc | hmem
  · exfalso
    rcases hminR with ⟨e, he, hlt⟩
    have h1 := hle e he
    unfold winnerOf at *
    rw [hacc] at h1
    simp only at h1
    omega
  · exact ⟨hmem, hle⟩

theorem mem_correctGuessers (r : GameRoom) (wid pid : String)
    (hndG : (keysOf r.guesses).Nodup) :
    pid ∈ correctGuessersOf r wid
      ↔ ∃ g, mapGet? r.guesses pid = some g ∧ g.guessedPlayerID = wid := by
  unfold correctGuessersOf
  rw [(List.mergeSort_perm _ _).mem_iff]
  constructor
  · intro h
    rcases List.mem_map.mp h with ⟨e, he, rfl⟩
    rcases List.mem_filter.mp he with ⟨hmem, hpred⟩
    refine ⟨e.2, ?_, beq_iff_eq.mp hpred⟩
    apply mapGet?_of_mem_nodup _ _ _ _ hndG
    cases e
    exact hmem
  · rintro ⟨g, hg, hwid⟩
    have hmem := mem_of_mapGet?_eq_some _ _ _ hg
    exact List.mem_map.mpr
      ⟨(pid, g), List.mem_filter.mpr ⟨hmem, beq_iff_eq.mpr hwid⟩, rfl⟩

theorem correctGuessers_sorted (r : GameRoom) (wid : String) :
    (correctGuessersOf r wid).Pairwise
      (fun a b => guessTimeOf r.guesses a ≤ guessTimeOf r.guesses b) := by
  unfold correctGuessersOf
  have h := @List.sorted_mergeSort String
    (fun a b => decide (guessTimeOf r.guesses a ≤ guessTimeOf r.guesses b))
    (by
      intro a b c hab hbc
      simp only [decide_eq_true_eq] at *
      omega)
    (by
      intro a b
      rcases Nat.le_total (guessTimeOf r.guesses a) (guessTimeOf r.guesses b) with h | h
        <;> simp [h])
    ((r.guesses.filter (fun e => e.2.guessedPlayerID == wid)).map (fun e => e.1))
  exact h.imp (fun hab => of_decide_eq_true hab)

theorem correctGuessers_nodup (r : GameRoom) (wid : String)
    (hndG : (keysOf r.guesses).Nodup) :
    (correctGuessersOf r wid).Nodup := by
  unfold correctGuessersOf
  rw [(List.mergeSort_perm _ _).nodup_iff]
  have hsub : List.Sublist
      ((r.guesses.filter (fun e => e.2.guessedPlayerID == wid)).map (fun e => e.1))
      (r.guesses.map (fun e => e.1)) :=
    (List.filter_sublist _).map _
  have hkeys : (r.guesses.map (fun e => e.1)).Nodup := hndG
  exact hkeys.sublist hsub

/-- The per-guesser award the points loop produces: 15 for the first sorted
correct guesser, 10 for the others, 0 for everyone else. -/
def specAward (guessers : List String) (pid : String) : Nat :=
  match guessers with
  | [] => 0
  | h :: t => if pid = h then 15 else if pid ∈ t then 10 else 0

/-- The pointsAwarded entry the points loop produces: present exactly for the
correct guessers. -/
def specAwardOpt (guessers : List String) (pid : String) : Option Nat :=
  match guessers with
  | [] => none
  | h :: t => if pid = h then some 15 else if pid ∈ t then some 10 else none

theorem awardPoints_tail (gt : String → Nat) (rs : Nat) (l : List String) (hnd : l.Nodup) :
    ∀ (idx : Nat), idx ≠ 0 → ∀ (pts scores : SMap Nat) (durations : SMap Int),
      (∀ pid, mapGet? (awardPoints gt rs l idx (pts, scores, durations)).1 pid
          = if pid ∈ l then some 10 else mapGet? pts pid)
      ∧ (∀ pid, scoreValue (awardPoints gt rs l idx (pts, scores, durations)).2.1 pid
          = scoreValue scores pid + (if pid ∈ l then 10 else 0)) := by
  induction l with
  | nil =>
    intro idx hidx pts scores durations
    constructor
    · intro pid
      simp [awardPoints]
    · intro pid
      simp [awardPoints]
  | cons h t ih =>
    intro idx hidx pts scores durations
    have hb : (idx == 0) = false := by
      cases idx with
      | zero => exact absurd rfl hidx
      | succ n => rfl
    have hnt : t.Nodup := (List.nodup_cons.mp hnd).2
    have hht : h ∉ t := (List.nodup_cons.mp hnd).1
    unfold awardPoints
    rw [hb]
    simp only [Bool.false_eq_true, if_false]
    rcases ih hnt (idx + 1) (by omega) (mapInsert pts h 10)
        (mapInsert scores h ((mapGet? scores h).getD 0 + 10))
        (mapInsert durations h ((gt h : Int) - (rs : Int))) with ⟨ihp, ihs⟩
    constructor
    · intro pid
      rw [ihp pid]
      by_cases hmem : pid ∈ t
      · rw [if_pos hmem, if_pos (List.mem_cons_of_mem _ hmem)]
      · rw [if_neg hmem]
        by_cases hph : pid = h
        · subst hph
          rw [if_pos (List.mem_cons_self _ _), mapGet?_mapInsert_self]
        · rw [if_neg (fun hc => by
            rcases List.mem_cons.mp hc with hc1 | hc2
            · exact hph hc1
            · exact hmem hc2)]
          rw [mapGet?_mapInsert_ne _ _ _ _ hph]
    · intro pid
      rw [ihs pid]
      by_cases hph : pid = h
      · subst hph
        rw [if_neg (fun hc => hht hc), if_pos (List.mem_cons_self _ _)]
        unfold scoreValue
        rw [mapGet?_mapInsert_self]
        simp only [Option.getD_some]
        try omega
      · by_cases hmem : pid ∈ t
        · rw [if_pos hmem, if_pos (List.mem_cons_of_mem _ hmem)]
          unfold scoreValue
          rw [mapGet?_mapInsert_ne _ _ _ _ hph]
        · rw [if_neg hmem]
          rw [if_neg (fun hc => by
            rcases List.mem_cons.mp hc with hc1 | hc2
            · exact hph hc1
            · exact hmem hc2)]
          unfold scoreValue
          rw [mapGet?_mapInsert_ne _ _ _ _ hph]

theorem awardPoints_spec (gt : String → Nat) (rs : Nat) (l : List String) (hnd : l.Nodup)
    (scores0 : SMap Nat) :
    (∀ pid, mapGet? (awardPoints gt rs l 0 ([], scores0, [])).1 pid
        = specAwardOpt l pid)
    ∧ (∀ pid, scoreValue (awardPoints gt rs l 0 ([], scores0, [])).2.1 pid
        = scoreValue scores0 pid + specAward l pid) := by
  cases l with
  | nil =>
    constructor
    · intro pid
      simp [awardPoints, mapGet?, specAwardOpt]
    · intro pid
      simp [awardPoints, specAward]
  | cons h t =>
    have hnt : t.Nodup := (List.nodup_cons.mp hnd).2
    have hht : h ∉ t := (List.nodup_cons.mp hnd).1
    rcases awardPoints_tail gt rs t hnt 1 (by omega) (mapInsert [] h 15)
        (mapInsert scores0 h ((mapGet? scores0 h).getD 0 + 15))
        (mapInsert [] h ((gt h : Int) - (rs : Int))) with ⟨ihp, ihs⟩
    have hstep : awardPoints gt rs (h :: t) 0 ([], scores0, [])
        = awardPoints gt rs t 1 (mapInsert [] h 15,
            mapInsert scores0 h ((mapGet? scores0 h).getD 0 + 15),
            mapInsert [] h ((gt h : Int) - (rs : Int))) := rfl
    rw [hstep]
    constructor
    · intro pid
      rw [ihp pid]
      simp only [specAwardOpt]
      by_cases hph : pid = h
      · rw [hph]
        rw [if_neg (fun hc => hht hc), if_pos (Eq.refl h), mapGet?_mapInsert_self]
      · by_cases hmem : pid ∈ t
        · rw [if_pos hmem, if_neg hph, if_pos hmem]
        · rw [if_neg hmem, if_neg hph, if_neg hmem]
          rw [mapGet?_mapInsert_ne _ _ _ _ hph]
          rfl
    · intro pid
      rw [ihs pid]
      simp only [specAward]
      by_cases hph : pid = h
      · rw [hph]
        rw [if_neg (fun hc => hht hc), if_pos (Eq.refl h)]
        unfold scoreValue
        rw [mapGet?_mapInsert_self]
        simp only [Option.getD_some]
        try omega
      · by_cases hmem : pid ∈ t
        · rw [if_neg hph, if_pos hmem]
          unfold scoreValue
          rw [mapGet?_mapInsert_ne _ _ _ _ hph]
        · rw [if_neg hph, if_neg hmem]
          unfold scoreValue
          rw [mapGet?_mapInsert_ne _ _ _ _ hph]
          try omega

theorem specAwardOpt_getD (l : List String) (pid : String) :
    (specAwardOpt l pid).getD 0 = specAward l pid := by
  cases l with
  | nil => rfl
  | cons h t =>
    simp only [specAwardOpt, specAward]
    by_cases h1 : pid = h
    · rw [if_pos h1, if_pos h1]
      rfl
    · rw [if_neg h1, if_neg h1]
      by_cases h2 : pid ∈ t
      · rw [if_pos h2, if_pos h2]
        rfl
      · rw [if_neg h2, if_neg h2]
        rfl

theorem mapContains_of_mem_keys {α : Type} (m : SMap α) (k : String) (h : k ∈ keysOf m) :
    mapContains m k = true := by
  rw [mapContains_eq_keys_any, List.any_eq_true]
  exact ⟨k, h, beq_self_eq_true k⟩

def roomC1cex : GameRoom :=
  { newGameRoom "Room 1" with
      state := .playing
      players := [("C", playerC)]
      playerOrder := ["C"]
      scores := [("C", 0)]
      currentTrack := some trackT1 }

/-- Claim C1 counterexample: in a PLAYING room whose only member's top-tracks
do not contain the current track, every ranking is 999 and the computed
winner id is the empty string, which is no member at all — so the round
winner is not the member with the lowest rank. -/
theorem winner_not_lowest_rank_cex :
    (calculateRoundResults roomC1cex trackT1).2.allRankings = [("C", 999)]
    ∧ (calculateRoundResults roomC1cex trackT1).2.winnerID = ""
    ∧ mapContains roomC1cex.players "" = false := by
  refine ⟨rfl, rfl, rfl⟩

/-- Claim C1 (amended): at round end in a PLAYING room with current track ct,
provided at least one member ranks the track below 999: every member's
ranking is the rank of ct in its top-tracks (999 if absent); the winner is a
member attaining the minimal ranking; the correct guessers are exactly those
whose recorded guess names the winner, ordered by guess timestamp ascending;
the first of them is awarded 15, every other 10, everyone else 0, with at
most one 15 per round; awards are added onto the accumulating scores; and
endRound broadcasts exactly this payload as round_complete. -/
theorem round_results_spec (r : GameRoom) (ct : Track)
    (hst : r.state = .playing) (hct : r.currentTrack = some ct)
    (hndP : (keysOf r.players).Nodup)
    (hndG : (keysOf r.guesses).Nodup)
    (hsub : ∀ e ∈ r.guesses, mapContains r.players e.1 = true)
    (hmin : ∃ e ∈ r.players, rankOf e.2 ct.id < 999) :
    (∀ pid p, mapGet? r.players pid = some p →
        mapGet? (calculateRoundResults r ct).2.allRankings pid = some (rankOf p ct.id))
    ∧ mapContains r.players (calculateRoundResults r ct).2.winnerID = true
    ∧ mapGet? (calculateRoundResults r ct).2.allRankings
        (calculateRoundResults r ct).2.winnerID
        = some (calculateRoundResults r ct).2.winnerRank
    ∧ (∀ pid p, mapGet? r.players pid = some p →
        (calculateRoundResults r ct).2.winnerRank ≤ rankOf p ct.id)
    ∧ (∀ pid, pid ∈ (calculateRoundResults r ct).2.correctGuessers ↔
        ∃ g, mapGet? r.guesses pid = some g
          ∧ g.guessedPlayerID = (calculateRoundResults r ct).2.winnerID)
    ∧ (calculateRoundResults r ct).2.correctGuessers.Pairwise
        (fun a b => guessTimeOf r.guesses a ≤ guessTimeOf r.guesses b)
    ∧ (∀ pid, pid ∈ (calculateRoundResults r ct).2.correctGuessers →
        mapContains r.players pid = true)
    ∧ (∀ pid, mapGet? (calculateRoundResults r ct).2.pointsAwarded pid
        = specAwardOpt (calculateRoundResults r ct).2.correctGuessers pid)
    ∧ (∀ pid, awardOf (calculateRoundResults r ct).2 pid
        = specAward (calculateRoundResults r ct).2.correctGuessers pid)
    ∧ (∀ pid1 pid2, awardOf (calculateRoundResults r ct).2 pid1 = 15 →
        awardOf (calculateRoundResults r ct).2 pid2 = 15 → pid1 = pid2)
    ∧ (∀ pid, scoreValue (calculateRoundResults r ct).2.updatedScores pid
        = scoreValue r.scores pid + awardOf (calculateRoundResults r ct).2 pid)
    ∧ (endRound r).msgs = [.roundComplete (calculateRoundResults r ct).2]
    ∧ (endRound r).room.scores = (calculateRoundResults r ct).2.updatedScores := by
  have hfa : (calculateRoundResults r ct).2.allRankings = allRankingsOf r ct := rfl
  have hfw : (calculateRoundResults r ct).2.winnerID = (winnerOf r ct).1 := rfl
  have hfr : (calculateRoundResults r ct).2.winnerRank = (winnerOf r ct).2 := rfl
  have hfc : (calculateRoundResults r ct).2.correctGuessers
      = correctGuessersOf r (winnerOf r ct).1 := rfl
  have hfp : (calculateRoundResults r ct).2.pointsAwarded
      = (awardPoints (guessTimeOf r.guesses) r.roundStartTime
          (correctGuessersOf r (winnerOf r ct).1) 0 ([], r.scores, [])).1 := rfl
  have hfs : (calculateRoundResults r ct).2.updatedScores
      = (awardPoints (guessTimeOf r.guesses) r.roundStartTime
          (correctGuessersOf r (winnerOf r ct).1) 0 ([], r.scores, [])).2.1 := rfl
  have hkeysA : keysOf (allRankingsOf r ct) = keysOf r.players := by
    unfold keysOf allRankingsOf
    rw [List.map_map]
    apply List.map_congr_left
    intro e _
    rfl
  rcases winnerOf_spec r ct hmin with ⟨hW, hWmin⟩
  have hndA : (keysOf (allRankingsOf r ct)).Nodup := by
    rw [hkeysA]
    exact hndP
  have hndCG : (correctGuessersOf r (winnerOf r ct).1).Nodup :=
    correctGuessers_nodup r _ hndG
  rcases awardPoints_spec (guessTimeOf r.guesses) r.roundStartTime
      (correctGuessersOf r (winnerOf r ct).1) hndCG r.scores with ⟨hAP, hAS⟩
  have hrank : ∀ pid p, mapGet? r.players pid = some p →
      mapGet? (calculateRoundResults r ct).2.allRankings pid = some (rankOf p ct.id) := by
    intro pid p hp
    rw [hfa]
    unfold allRankingsOf
    rw [mapGet?_map_values r.players (fun p => rankOf p ct.id) pid, hp]
    rfl
  have hawardOf : ∀ pid, awardOf (calculateRoundResults r ct).2 pid
      = specAward (calculateRoundResults r ct).2.correctGuessers pid := by
    intro pid
    unfold awardOf
    rw [hfp, hAP pid, hfc, specAwardOpt_getD]
  have hmsgs : (endRound r).msgs = [.roundComplete (calculateRoundResults r ct).2] := by
    unfold endRound
    rw [if_neg (fun hc => hc hst), hct]
  have hroomsc : (endRound r).room.scores = (calculateRoundResults r ct).2.updatedScores := by
    unfold endRound
    rw [if_neg (fun hc => hc hst), hct]
    rfl
  refine ⟨hrank, ?_, ?_, ?_, ?_, ?_, ?_, ?_, hawardOf, ?_, ?_, hmsgs, hroomsc⟩
  · rw [hfw]
    apply mapContains_of_mem_keys
    rw [← hkeysA]
    unfold keysOf
    exact List.mem_map.mpr ⟨winnerOf r ct, hW, rfl⟩
  · rw [hfa, hfw, hfr]
    apply mapGet?_of_mem_nodup _ _ _ _ hndA
    rw [Prod.mk.eta]
    exact hW
  · intro pid p hp
    rw [hfr]
    have hmem : (pid, rankOf p ct.id) ∈ allRankingsOf r ct := by
      unfold allRankingsOf
      exact List.mem_map.mpr ⟨(pid, p), mem_of_mapGet?_eq_some _ _ _ hp, rfl⟩
    exact hWmin _ hmem
  · intro pid
    rw [hfc, hfw]
    exact mem_correctGuessers r _ pid hndG
  · rw [hfc]
    exact correctGuessers_sorted r _
  · intro pid hpid
    rw [hfc] at hpid
    rcases (mem_correctGuessers r _ pid hndG).mp hpid with ⟨g, hg, _⟩
    exact hsub (pid, g) (mem_of_mapGet?_eq_some _ _ _ hg)
  · intro pid
    rw [hfp, hfc]
    exact hAP pid
  · intro pid1 pid2 h1 h2
    rw [hawardOf] at h1 h2
    rw [hfc] at h1 h2
    cases hcg : correctGuessersOf r (winnerOf r ct).1 with
    | nil =>
      rw [hcg] at h1
      simp [specAward] at h1
    | cons hd tl =>
      rw [hcg] at h1 h2
      simp only [specAward] at h1 h2
      have e1 : pid1 = hd := by
        by_cases hx : pid1 = hd
        · exact hx
        · rw [if_neg hx] at h1
          by_cases hy : pid1 ∈ tl
          · rw [if_pos hy] at h1
            omega
          · rw [if_neg hy] at h1
            omega
      have e2 : pid2 = hd := by
        by_cases hx : pid2 = hd
        · exact hx
        · rw [if_neg hx] at h2
          by_cases hy : pid2 ∈ tl
          · rw [if_pos hy] at h2
            omega
          · rw [if_neg hy] at h2
            omega
      rw [e1, e2]
  · intro pid
    rw [hfs, hAS pid, hawardOf, hfc]

def guessB1 : Guess := { playerID := "B", guessedPlayerID := "A", timestamp := 9 }

def roomC1w : GameRoom :=
  { newGameRoom "Room 1" with
      state := .playing
      players := [("A", playerA), ("B", playerB)]
      playerOrder := ["A", "B"]
      scores := [("A", 0), ("B", 0)]
      currentTrack := some trackT2
      guesses := [("A", guessA1), ("B", guessB1)] }

/-- Witness for the amended C1 theorem: A and B both guessed; B ranks the
track 1 and wins; A's award is the computed specAward and the winner is a
member. -/
theorem round_results_spec_witness :
    mapContains roomC1w.players (calculateRoundResults roomC1w trackT2).2.winnerID = true
    ∧ awardOf (calculateRoundResults roomC1w trackT2).2 "A"
        = specAward (calculateRoundResults roomC1w trackT2).2.correctGuessers "A"
    ∧ (∀ pid, scoreValue (calculateRoundResults roomC1w trackT2).2.updatedScores pid
        = scoreValue roomC1w.scores pid
            + awardOf (calculateRoundResults roomC1w trackT2).2 pid) := by
  obtain ⟨ha, hb, hc, hd, he, hf, hg, hh, hi, hj, hk, hl, hm⟩ :=
    round_results_spec roomC1w trackT2 rfl rfl (by decide) (by decide) (by decide)
      ⟨("B", playerB), by decide, by decide⟩
  exact ⟨hb, hi "A", hk⟩

/-! ### Claim C5: track non-repetition within a game -/

theorem handlePlayerJoin_played (r : GameRoom) (p : Player) :
    (handlePlayerJoin r p).room.playedTracks = r.playedTracks := by
  unfold handlePlayerJoin
  split <;> rfl

theorem handlePlayerLeave_played (r : GameRoom) (pid : String) :
    (handlePlayerLeave r pid).room.playedTracks = r.playedTracks := by
  unfold handlePlayerLeave
  cases hm : mapGet? r.players pid with
  | none => rfl
  | some p =>
    dsimp only
    split <;> (try split) <;> (try split) <;> rfl

theorem handlePlayerReady_played (r : GameRoom) (payload : ReadyPayload) :
    (handlePlayerReady r payload).room.playedTracks = r.playedTracks := by
  unfold handlePlayerReady
  cases hm : mapGet? r.players payload.playerID with
  | none => rfl
  | some p =>
    dsimp only
    split <;> rfl

theorem handleGuess_played (r : GameRoom) (g : Guess) :
    (handleGuess r g).room.playedTracks = r.playedTracks := by
  unfold handleGuess
  split <;> rfl

theorem endRound_played (r : GameRoom) :
    (endRound r).room.playedTracks = r.playedTracks := by
  simp only [endRound]
  split
  · rfl
  · split <;> (repeat' split) <;> rfl

theorem finishGame_played (r : GameRoom) :
    (finishGame r).room.playedTracks = r.playedTracks := rfl

theorem mem_setInsert_of_mem (s : List String) (x tid : String) (h : tid ∈ s) :
    tid ∈ setInsert s x := by
  unfold setInsert
  split
  · exact h
  · exact List.mem_append.mpr (Or.inl h)

theorem mem_setInsert_self (s : List String) (x : String) :
    x ∈ setInsert s x := by
  unfold setInsert
  split
  · assumption
  · exact List.mem_append.mpr (Or.inr (List.mem_singleton.mpr rfl))

theorem startNextRound_played_mono (r : GameRoom) (now i : Nat) :
    ∀ tid ∈ r.playedTracks, tid ∈ (startNextRound r now i).room.playedTracks := by
  intro tid htid
  simp only [startNextRound]
  cases hsel : selectTrack (advanceRound r now) i with
  | none => exact htid
  | some t => exact mem_setInsert_of_mem _ _ _ htid

theorem handleGameStart_played_of_guard_false (r : GameRoom) (n : Int)
    (h : gameStartGuard r = false) :
    (handleGameStart r n).room.playedTracks = r.playedTracks := by
  unfold handleGameStart
  dsimp only
  split
  case isTrue hgo =>
    dsimp only
    split
    case isTrue hc => exact absurd rfl hc
    case isFalse =>
      split
      case isTrue => rfl
      case isFalse h2 =>
        split
        case isTrue => rfl
        case isFalse hall =>
          exfalso
          unfold gameStartGuard at h
          rw [Bool.and_eq_false_iff, Bool.and_eq_false_iff] at h
          rcases h with (hA | hB) | hC
          · rw [hgo] at hA
            simp at hA
          · rw [decide_eq_false_iff_not] at hB
            omega
          · have hall' := not_not.mp hall
            rw [hall'] at hC
            cases hC
  case isFalse hgo =>
    split
    case isTrue => rfl
    case isFalse hw =>
      split
      case isTrue => rfl
      case isFalse h2 =>
        split
        case isTrue => rfl
        case isFalse hall =>
          exfalso
          have hwa : r.state = GameState.waiting := not_not.mp hw
          unfold gameStartGuard at h
          rw [Bool.and_eq_false_iff, Bool.and_eq_false_iff] at h
          rcases h with (hA | hB) | hC
          · rw [hwa] at hA
            simp at hA
          · rw [decide_eq_false_iff_not] at hB
            omega
          · have hall' := not_not.mp hall
            rw [hall'] at hC
            cases hC

theorem handleGameStart_played_of_guard_true (r : GameRoom) (n : Int)
    (h : gameStartGuard r = true) :
    (handleGameStart r n).room.playedTracks = []
    ∧ (handleGameStart r n).room.state = .playing := by
  unfold gameStartGuard at h
  rw [Bool.and_eq_true, Bool.and_eq_true] at h
  obtain ⟨⟨hA, hB⟩, hC⟩ := h
  have h2 : 2 ≤ r.players.length := of_decide_eq_true hB
  unfold handleGameStart
  dsimp only
  rcases Bool.or_eq_true_iff.mp hA with h1 | h1
  · have hgo : r.state = GameState.gameOver := beq_iff_eq.mp h1
    rw [if_pos hgo]
    dsimp only
    split
    case isTrue hc => exact absurd rfl hc
    case isFalse =>
      rw [if_neg (show ¬ r.players.length < 2 by omega)]
      exact ⟨rfl, rfl⟩
  · have hwa : r.state = GameState.waiting := beq_iff_eq.mp h1
    rw [if_neg (show ¬ r.state = GameState.gameOver by rw [hwa]; intro hc; cases hc)]
    rw [if_neg (show ¬ (r.state ≠ GameState.waiting) from fun hc => hc hwa)]
    rw [if_neg (show ¬ r.players.length < 2 by omega)]
    first
    | exact ⟨rfl, rfl⟩
    | (rw [if_neg (show ¬¬(r.players.all (fun e => e.2.isReady) = true) from fun hc => hc hC)]
       exact ⟨rfl, rfl⟩)

theorem played_monotone (r : GameRoom) (c : Cmd) (h : startsGame r c = false) :
    ∀ tid ∈ r.playedTracks, tid ∈ (applyCmd r c).room.playedTracks := by
  intro tid htid
  cases c with
  | join p =>
    show tid ∈ (handlePlayerJoin r p).room.playedTracks
    rw [handlePlayerJoin_played]
    exact htid
  | leave pid =>
    show tid ∈ (handlePlayerLeave r pid).room.playedTracks
    rw [handlePlayerLeave_played]
    exact htid
  | setReady payload =>
    show tid ∈ (handlePlayerReady r payload).room.playedTracks
    rw [handlePlayerReady_played]
    exact htid
  | startGame n =>
    show tid ∈ (handleGameStart r n).room.playedTracks
    rw [handleGameStart_played_of_guard_false r n h]
    exact htid
  | submitGuess g =>
    show tid ∈ (handleGuess r g).room.playedTracks
    rw [handleGuess_played]
    exact htid
  | roundStart now i =>
    exact startNextRound_played_mono r now i tid htid
  | roundEnd =>
    show tid ∈ (endRound r).room.playedTracks
    rw [endRound_played]
    exact htid
  | finish =>
    show tid ∈ (finishGame r).room.playedTracks
    rw [finishGame_played]
    exact htid

theorem stepSelected_spec (r : GameRoom) (c : Cmd) (tid : String)
    (h : stepSelected r c = some tid) :
    tid ∉ r.playedTracks ∧ tid ∈ (applyCmd r c).room.playedTracks := by
  cases c with
  | join p => cases h
  | leave pid => cases h
  | setReady payload => cases h
  | startGame n => cases h
  | submitGuess g => cases h
  | roundEnd => cases h
  | finish => cases h
  | roundStart now i =>
    have h' : (selectTrack (advanceRound r now) i).map (fun t => t.id) = some tid := h
    cases hsel : selectTrack (advanceRound r now) i with
    | none =>
      rw [hsel] at h'
      cases h'
    | some t =>
      rw [hsel] at h'
      have h2 : t.id = tid := by
        have h3 : some t.id = some tid := h'
        injection h3
      have hmem := selectTrack_mem (advanceRound r now) i t hsel
      rw [← h2]
      constructor
      · exact hmem.2
      · show t.id ∈ (startNextRound r now i).room.playedTracks
        simp only [startNextRound, hsel]
        exact mem_setInsert_self _ _

theorem traceSelections_not_played (r : GameRoom) (cmds : List Cmd)
    (h : noStartIn r cmds = true) :
    ∀ tid ∈ r.playedTracks, tid ∉ traceSelections r cmds := by
  induction cmds generalizing r with
  | nil =>
    intro tid _ hc
    cases hc
  | cons c cs ih =>
    intro tid htid hc
    unfold noStartIn at h
    rw [Bool.and_eq_true] at h
    obtain ⟨h1, h2⟩ := h
    have hst : startsGame r c = false := by
      cases hs : startsGame r c
      · rfl
      · rw [hs] at h1
        cases h1
    unfold traceSelections at hc
    rcases List.mem_append.mp hc with hm | hm
    · cases hsel : stepSelected r c with
      | none =>
        rw [hsel] at hm
        cases hm
      | some tid2 =>
        rw [hsel] at hm
        have htid2 : tid = tid2 := by simpa using hm
        rw [htid2] at htid
        exact (stepSelected_spec r c tid2 hsel).1 htid
    · exact ih (applyCmd r c).room h2 tid (played_monotone r c hst tid htid) hm

theorem traceSelections_nodup (r : GameRoom) (cmds : List Cmd)
    (h : noStartIn r cmds = true) :
    (traceSelections r cmds).Nodup := by
  induction cmds generalizing r with
  | nil => exact List.nodup_nil
  | cons c cs ih =>
    unfold noStartIn at h
    rw [Bool.and_eq_true] at h
    obtain ⟨h1, h2⟩ := h
    unfold traceSelections
    cases hsel : stepSelected r c with
    | none =>
      simpa using ih (applyCmd r c).room h2
    | some tid =>
      have hcons : (some tid).toList ++ traceSelections (applyCmd r c).room cs
          = tid :: traceSelections (applyCmd r c).room cs := rfl
      rw [hcons, List.nodup_cons]
      exact ⟨traceSelections_not_played (applyCmd r c).room cs h2 tid
          (stepSelected_spec r c tid hsel).2, ih _ h2⟩

/-- Claim C5: within one game no track id is selected for two different
rounds: along any command suffix containing no successful game start, the
selected ids are pairwise distinct; every round start draws a track outside
played_track_ids and records it there; every step that is not a successful
StartGame preserves (never resets) played_track_ids; and the reset to the
empty set happens exactly on the WAITING→PLAYING transition of a successful
StartGame. -/
theorem track_non_repetition (r : GameRoom) (cmds : List Cmd) (c : Cmd) (tid : String)
    (n : Int) :
    (noStartIn r cmds = true → (traceSelections r cmds).Nodup)
    ∧ (stepSelected r c = some tid →
        tid ∉ r.playedTracks ∧ tid ∈ (applyCmd r c).room.playedTracks)
    ∧ (startsGame r c = false →
        ∀ t ∈ r.playedTracks, t ∈ (applyCmd r c).room.playedTracks)
    ∧ (gameStartGuard r = true →
        (handleGameStart r n).room.playedTracks = []
        ∧ (handleGameStart r n).room.state = .playing) :=
  ⟨traceSelections_nodup r cmds, stepSelected_spec r c tid,
    played_monotone r c, handleGameStart_played_of_guard_true r n⟩

/-- Witness for C5: a concrete two-round game draws t1 then t2 and the
selection trace is duplicate-free. -/
theorem track_non_repetition_witness :
    (traceSelections roomC6w [Cmd.roundStart 100 0, Cmd.roundEnd, Cmd.roundStart 200 0]).Nodup
    ∧ ("t1" ∉ roomC6w.playedTracks
        ∧ "t1" ∈ (applyCmd roomC6w (Cmd.roundStart 100 0)).room.playedTracks) := by
  have h := track_non_repetition roomC6w
    [Cmd.roundStart 100 0, Cmd.roundEnd, Cmd.roundStart 200 0] (Cmd.roundStart 100 0) "t1" 1
  exact ⟨h.1 (by decide), h.2.1 (by decide)⟩

end Roulettify
